import Mathlib

/-!
# Lock family and first-signal-wins aggregators

A shallow embedding of `MutexLock.go` and `goroutine.go`.

Channels are modelled by the part of their state the code can observe: a
buffered `chan struct{}` by its capacity and the number of queued elements,
a signal source by the number of values delivered to it, the number of
values taken from it and whether it is closed.  A blocking operation is a
function into `Option` (`none`: the operation cannot proceed in this state
and the goroutine stays blocked); a `select` with a `default` branch uses
the same function and takes the `default` branch on `none`.  Goroutines are
interleaved one atomic step at a time.  Time is counted in ticks; a timer fires
when its duration has elapsed and the runtime has delivered its value, and a
goroutine may be delayed by any number of ticks between two statements.
-/

namespace Program

/-! ## Channels of `struct{}` -/

/-- A buffered channel of `struct{}`: capacity and number of queued elements. -/
structure Chan where
  cap : Nat
  len : Nat
deriving DecidableEq, Repr

/-- The Go builtin `make(chan struct{}, cap)`: an empty channel. -/
def makeChan (cap : Nat) : Chan := { cap := cap, len := 0 }

/-- A send `ch <- struct{}{}` with no receiver waiting: it proceeds when the
buffer has room, otherwise it cannot proceed (`none`). -/
def Chan.send (c : Chan) : Option Chan :=
  if c.len < c.cap then some { c with len := c.len + 1 } else none

/-- A receive `<-ch` with no sender waiting: it proceeds when an element is
queued, otherwise it cannot proceed (`none`). -/
def Chan.recv (c : Chan) : Option Chan :=
  if 0 < c.len then some { c with len := c.len - 1 } else none

/-! ## 1. The hacked `sync.Mutex` -/

/-- The declaration `const mutexLocked = 1 << iota`, a constant specification
of its own, so `iota` is `0`. -/
def iota : Nat := 0

/-- The constant `mutexLocked`. -/
def mutexLocked : Int := ((1 <<< iota : Nat) : Int)

/-- The standard library mutex: an `int32` state word followed by a semaphore. -/
structure SyncMutex where
  state : Int
  sema : Nat
deriving DecidableEq, Repr

/-- The type `Mutex`. -/
structure Mutex where
  mu : SyncMutex
deriving DecidableEq, Repr

/-- The call `atomic.CompareAndSwapInt32(addr, old, new)` on a word holding `v`:
whether the swap happened, and the word afterwards. -/
def CompareAndSwapInt32 (v old new : Int) : Bool × Int :=
  if v = old then (true, new) else (false, v)

/-- The call `atomic.LoadInt32`. -/
def LoadInt32 (v : Int) : Int := v

/-- The method `Mutex.TryLock`: the pointer to `m.mu` is read as a pointer to its first
word, the state word. -/
def Mutex.TryLock (m : Mutex) : Bool × Mutex :=
  let r := CompareAndSwapInt32 m.mu.state 0 mutexLocked
  (r.1, { mu := { m.mu with state := r.2 } })

/-- The method `Mutex.IsLocked`. -/
def Mutex.IsLocked (m : Mutex) : Bool :=
  decide (LoadInt32 m.mu.state = mutexLocked)

/-- The locked/unlocked indicator bit of a state word: `w & mutexLocked != 0`
(bit 0 of the two's-complement word). -/
def indicatorBit (w : Int) : Bool := decide (w % 2 = 1)

/-! ## 2. `MutexChan` -/

/-- The type `MutexChan`. -/
structure MutexChan where
  ch : Chan
deriving DecidableEq, Repr

/-- The constructor `NewMutexChan`: `none` would mean that the send blocks and the
constructor never returns. -/
def NewMutexChan : Option MutexChan :=
  match (makeChan 1).send with
  | some c => some { ch := c }
  | none => none

/-- The method `MutexChan.Lock`: a blocking receive. -/
def MutexChan.Lock (m : MutexChan) : Option MutexChan :=
  match m.ch.recv with
  | some c => some { ch := c }
  | none => none

/-- The panic value of `Unlock`. -/
def unlockFault : String := "unlock of unlocked mutex"

/-- The method `MutexChan.Unlock`: the panic raised, if any, and the lock afterwards. -/
def MutexChan.Unlock (m : MutexChan) : Option String × MutexChan :=
  match m.ch.send with
  | some c => (none, { ch := c })
  | none => (some unlockFault, m)

/-- The method `MutexChan.TryLock`: the result and the lock afterwards. -/
def MutexChan.TryLock (m : MutexChan) : Bool × MutexChan :=
  match m.ch.recv with
  | some c => (true, { ch := c })
  | none => (false, m)

/-- The method `MutexChan.IsLocked`: `len(m.ch) > 0`. -/
def MutexChan.IsLocked (m : MutexChan) : Bool := decide (m.ch.len > 0)

/-- States of a `MutexChan` built by the constructor: a one-slot channel. -/
def MutexChan.WF (m : MutexChan) : Prop := m.ch.cap = 1 ∧ m.ch.len ≤ 1

/-- The lock is unlocked: the channel holds its token. -/
def MutexChan.unlocked (m : MutexChan) : Prop := 0 < m.ch.len

/-- The lock is locked: the token has been taken, the channel is empty. -/
def MutexChan.locked (m : MutexChan) : Prop := m.ch.len = 0

instance (m : MutexChan) : Decidable m.WF := by unfold MutexChan.WF; infer_instance
instance (m : MutexChan) : Decidable m.unlocked := by unfold MutexChan.unlocked; infer_instance
instance (m : MutexChan) : Decidable m.locked := by unfold MutexChan.locked; infer_instance

/-- Run `n` times `Lock` then `Unlock`, stopping at the first panic; `none` when a
`Lock` blocks. -/
def MutexChan.lockUnlockPairs : Nat → MutexChan → Option (Option String × MutexChan)
  | 0, m => some (none, m)
  | n + 1, m =>
    match m.Lock with
    | none => none
    | some m1 =>
      match m1.Unlock with
      | (none, m2) => MutexChan.lockUnlockPairs n m2
      | (some f, m2) => some (some f, m2)

/-- The `TryLock` calls of the callers in `order` take effect one after the other:
each caller with its result, and the lock afterwards. -/
def MutexChan.raceTryLock : List Nat → MutexChan → List (Nat × Bool) × MutexChan
  | [], m => ([], m)
  | caller :: rest, m =>
    let r := m.TryLock
    let rs := MutexChan.raceTryLock rest r.2
    ((caller, r.1) :: rs.1, rs.2)

/-- An operation called on the lock by some goroutine. -/
inductive LockOp where
  | lock
  | tryLock
  | unlock
deriving DecidableEq, Repr

/-- A `MutexChan` together with the number of holders: acquisitions that succeeded
and have not been released. -/
structure LockSys where
  m : MutexChan
  holders : Nat
deriving DecidableEq, Repr

/-- One operation taking effect: `none` when the operation is a `Lock` that is blocked. -/
def LockSys.step (s : LockSys) : LockOp → Option LockSys
  | .lock =>
    match s.m.Lock with
    | some m1 => some { m := m1, holders := s.holders + 1 }
    | none => none
  | .tryLock =>
    match s.m.TryLock with
    | (true, m1) => some { m := m1, holders := s.holders + 1 }
    | (false, m1) => some { m := m1, holders := s.holders }
  | .unlock =>
    match s.m.Unlock with
    | (none, m1) => some { m := m1, holders := s.holders - 1 }
    | (some _, m1) => some { m := m1, holders := s.holders }

/-- The operations of `ops` take effect in order. -/
def LockSys.run : List LockOp → LockSys → Option LockSys
  | [], s => some s
  | op :: ops, s =>
    match s.step op with
    | some s1 => LockSys.run ops s1
    | none => none

/-- States reachable from `NewMutexChan()` by `Lock`, `TryLock` and `Unlock` steps. -/
def LockSys.Reachable (s : LockSys) : Prop :=
  ∃ m0 ops, NewMutexChan = some m0 ∧ LockSys.run ops { m := m0, holders := 0 } = some s

/-- The invariant of the lock: a one-slot channel, and holders plus tokens is one. -/
def LockSys.Inv (s : LockSys) : Prop := s.m.ch.cap = 1 ∧ s.holders + s.m.ch.len = 1

/-! ## 3. `MutexTimeOut` -/

/-- The type `MutexTimeOut`. -/
structure MutexTimeOut where
  ch : Chan
deriving DecidableEq, Repr

/-- The constructor `NewMutexTimeOut`, by its body, which builds a `MutexTimeOut` holding
its token (the result type written in the declaration, `*Mutex`, plays no part). -/
def NewMutexTimeOut : Option MutexTimeOut :=
  match (makeChan 1).send with
  | some c => some { ch := c }
  | none => none

/-- The method `MutexTimeOut.Lock`: a blocking receive. -/
def MutexTimeOut.Lock (m : MutexTimeOut) : Option MutexTimeOut :=
  match m.ch.recv with
  | some c => some { ch := c }
  | none => none

/-- The method `MutexTimeOut.Unlock`: the panic raised, if any, and the lock afterwards. -/
def MutexTimeOut.Unlock (m : MutexTimeOut) : Option String × MutexTimeOut :=
  match m.ch.send with
  | some c => (none, { ch := c })
  | none => (some unlockFault, m)

/-- The method `MutexTimeOut.IsLocked`: `len(m.ch) > 0`. -/
def MutexTimeOut.IsLocked (m : MutexTimeOut) : Bool := decide (m.ch.len > 0)

/-- States of a `MutexTimeOut` built by the constructor: a one-slot channel. -/
def MutexTimeOut.WF (m : MutexTimeOut) : Prop := m.ch.cap = 1 ∧ m.ch.len ≤ 1

/-- The lock is unlocked: the channel holds its token. -/
def MutexTimeOut.unlocked (m : MutexTimeOut) : Prop := 0 < m.ch.len

/-- The lock is locked: the token has been taken, the channel is empty. -/
def MutexTimeOut.locked (m : MutexTimeOut) : Prop := m.ch.len = 0

instance (m : MutexTimeOut) : Decidable m.WF := by unfold MutexTimeOut.WF; infer_instance
instance (m : MutexTimeOut) : Decidable m.unlocked := by
  unfold MutexTimeOut.unlocked; infer_instance
instance (m : MutexTimeOut) : Decidable m.locked := by
  unfold MutexTimeOut.locked; infer_instance

/-- Run `n` times `Lock` then `Unlock`, stopping at the first panic; `none` when a
`Lock` blocks. -/
def MutexTimeOut.lockUnlockPairs : Nat → MutexTimeOut → Option (Option String × MutexTimeOut)
  | 0, m => some (none, m)
  | n + 1, m =>
    match m.Lock with
    | none => none
    | some m1 =>
      match m1.Unlock with
      | (none, m2) => MutexTimeOut.lockUnlockPairs n m2
      | (some f, m2) => some (some f, m2)

/-- A timer of package `time`: the tick (nanosecond) at which it was made, its duration,
the number of ticks the runtime takes to deliver its value once the duration has elapsed,
and whether `Stop` was called on it. -/
structure Timer where
  createdAt : Nat
  d : Int
  late : Nat
  stopped : Bool
deriving DecidableEq, Repr

/-- The call `time.NewTimer(d)`, made at tick `now`. -/
def NewTimer (now : Nat) (d : Int) (late : Nat) : Timer :=
  { createdAt := now, d := d, late := late, stopped := false }

/-- The call `time.After(d)`, made at tick `now`: the channel of a new timer,
`NewTimer(d).C`. -/
def After (now : Nat) (d : Int) (late : Nat) : Timer := NewTimer now d late

/-- The method `Timer.Stop`. -/
def Timer.Stop (t : Timer) : Timer := { t with stopped := true }

/-- The tick at which the timer fires: a duration that is zero or negative elapses at
once. -/
def Timer.fireAt (t : Timer) : Nat := t.createdAt + t.d.toNat + t.late

/-- The channel of the timer holds a value at tick `now`: the timer was not stopped and
has fired. -/
def Timer.fired (t : Timer) (now : Nat) : Bool := !t.stopped && decide (t.fireAt ≤ now)

/-- The timer is still pending at tick `now`: it was not stopped and has not fired. -/
def Timer.pending (t : Timer) (now : Nat) : Bool := !t.stopped && decide (now < t.fireAt)

/-- What another goroutine does to the lock. -/
inductive Other where
  | acquire
  | release
deriving DecidableEq, Repr

/-- The lock after another goroutine acted on it: an `acquire` with no token and a
`release` with the token present leave the channel as it is. -/
def MutexTimeOut.other (m : MutexTimeOut) : Other → MutexTimeOut
  | .acquire =>
    match m.Lock with
    | some m1 => m1
    | none => m
  | .release => (m.Unlock).2

/-- The lock after the other goroutines acted on it, one after the other. -/
def MutexTimeOut.others (m : MutexTimeOut) : List Other → MutexTimeOut
  | [] => m
  | o :: rest => MutexTimeOut.others (m.other o) rest

/-- The lock `k` ticks after the call started, as the other goroutines alone make it:
`env j` is what they do between tick `j - 1` and tick `j`. -/
def MutexTimeOut.atTick (m : MutexTimeOut) (env : Nat → List Other) : Nat → MutexTimeOut
  | 0 => m
  | k + 1 => (MutexTimeOut.atTick m env k).others (env (k + 1))

/-- What a call of `MutexTimeOut.TryLock` leaves: its result, the lock, the tick at which
it returns, and the two timers it made. -/
structure TryLockResult where
  ok : Bool
  m : MutexTimeOut
  returnedAt : Nat
  timer : Timer
  afterTimer : Timer
deriving DecidableEq, Repr

/-- The `select` statement of `MutexTimeOut.TryLock`, polled at tick `now`: when both
channels are ready `pick` chooses (`true`: the receive from `m.ch`); when none is, the
goroutine stays blocked (`none`). -/
def MutexTimeOut.selectPoll (pick : Bool) (timer afterTimer : Timer) (now : Nat)
    (m : MutexTimeOut) : Option TryLockResult :=
  match m.ch.recv, afterTimer.fired now with
  | some c, false =>
    some { ok := true, m := { ch := c }, returnedAt := now, timer := timer.Stop,
           afterTimer := afterTimer }
  | some c, true =>
    if pick then
      some { ok := true, m := { ch := c }, returnedAt := now, timer := timer.Stop,
             afterTimer := afterTimer }
    else
      some { ok := false, m := m, returnedAt := now, timer := timer,
             afterTimer := afterTimer }
  | none, true =>
    some { ok := false, m := m, returnedAt := now, timer := timer,
           afterTimer := afterTimer }
  | none, false => none

/-- The goroutine in the `select`: it polls at tick `now` and, when no channel is ready,
stays blocked until the next tick, after the other goroutines acted. -/
def MutexTimeOut.selectWait (env : Nat → List Other) (pick : Bool) (timer afterTimer : Timer) :
    Nat → Nat → MutexTimeOut → Option TryLockResult
  | 0, now, m => MutexTimeOut.selectPoll pick timer afterTimer now m
  | fuel + 1, now, m =>
    match MutexTimeOut.selectPoll pick timer afterTimer now m with
    | some r => some r
    | none =>
      MutexTimeOut.selectWait env pick timer afterTimer fuel (now + 1)
        (m.others (env (now + 1)))

/-- The method `MutexTimeOut.TryLock`, called at tick `0`: `NewTimer` is called at once,
`time.After` is evaluated `lag1` ticks later, and the `select` polls its channels for the
first time `lag2` ticks after that; meanwhile the other goroutines act on the lock.  The
fuel covers every tick up to the one at which the timer of `time.After` fires. -/
def MutexTimeOut.TryLock (m : MutexTimeOut) (d : Int) (lag1 lag2 late : Nat)
    (env : Nat → List Other) (pick : Bool) : Option TryLockResult :=
  let timer := NewTimer 0 d late
  let afterTimer := After lag1 d late
  MutexTimeOut.selectWait env pick timer afterTimer (d.toNat + late) (lag1 + lag2)
    (m.atTick env (lag1 + lag2))

/-- What a result of the `select` satisfies, for the call started on `m0` whose `select`
waits on `afterTimer`, polls from tick `start` on and is polled at `now` or later. -/
def MutexTimeOut.SelectPost (m0 : MutexTimeOut) (afterTimer : Timer) (start : Nat)
    (env : Nat → List Other) (timer : Timer) (now : Nat) (r : TryLockResult) : Prop :=
  now ≤ r.returnedAt ∧ r.returnedAt ≤ max now afterTimer.fireAt ∧
  (∀ k, start ≤ k → k < r.returnedAt → (m0.atTick env k).locked) ∧
  (r.ok = true → 0 < (m0.atTick env r.returnedAt).ch.len ∧
    r.m.ch.len + 1 = (m0.atTick env r.returnedAt).ch.len ∧ r.timer = timer.Stop) ∧
  (r.ok = false → r.m = m0.atTick env r.returnedAt ∧
    afterTimer.fireAt ≤ r.returnedAt ∧ r.timer = timer) ∧
  r.afterTimer = afterTimer

/-! ## Signal sources and aggregate channels -/

/-- A signal source, a channel of `interface{}` seen from its receiving side: the number
of values delivered to it (queued in its buffer or offered by a blocked sender) since the
aggregator was called, the number of values received from it since then, and whether it
is closed. -/
structure Src where
  sent : Nat
  taken : Nat
  closed : Bool
deriving DecidableEq, Repr

/-- A receive from the source can proceed: a value waits, or the channel is closed. -/
def Src.ready (s : Src) : Bool := decide (s.taken < s.sent) || s.closed

/-- The source has become ready at some moment: a value was delivered to it, or it
was closed. -/
def Src.hasFired (s : Src) : Bool := decide (0 < s.sent) || s.closed

/-- A receive `<-c` from the source: it takes a waiting value, or yields the zero value of
a closed channel; `none` when it cannot proceed. -/
def Src.recv (s : Src) : Option Src :=
  if s.taken < s.sent then some { s with taken := s.taken + 1 }
  else if s.closed then some s
  else none

/-- A channel argument of an aggregator: `none` is the nil channel, `some i` the source
numbered `i`. -/
abbrev ChanRef := Option Nat

/-- The states of all the sources. -/
abbrev Srcs := Nat → Src

/-- A receive from the referenced channel can proceed; never from a nil channel. -/
def srcReady (srcs : Srcs) : ChanRef → Bool
  | none => false
  | some i => (srcs i).ready

/-- The referenced channel has become ready at some moment; never a nil channel. -/
def srcFired (srcs : Srcs) : ChanRef → Bool
  | none => false
  | some i => (srcs i).hasFired

/-- A receive from the referenced channel: the sources afterwards, `none` when the
receive cannot proceed. -/
def srcRecv (srcs : Srcs) : ChanRef → Option Srcs
  | none => none
  | some i =>
    match (srcs i).recv with
    | some s => some (Function.update srcs i s)
    | none => none

/-- What the rest of the program does to a source: deliver a value, close it, or
receive from it. -/
inductive EnvAct where
  | send (i : Nat)
  | close (i : Nat)
  | take (i : Nat)
deriving DecidableEq, Repr

/-- One action of the rest of the program; `none` when it cannot happen (a send to or a
close of a closed channel, a receive that cannot proceed). -/
def envStep (srcs : Srcs) : EnvAct → Option Srcs
  | .send i =>
    if (srcs i).closed then none
    else some (Function.update srcs i { srcs i with sent := (srcs i).sent + 1 })
  | .close i =>
    if (srcs i).closed then none
    else some (Function.update srcs i { srcs i with closed := true })
  | .take i => srcRecv srcs (some i)

/-- A channel made by an aggregator, `make(chan interface{})`: nothing is ever sent on it,
so only whether it is closed matters. -/
structure Out where
  closed : Bool
deriving DecidableEq, Repr

/-- The panic value of a second `close`. -/
def closeFault : String := "close of closed channel"

/-- The Go builtin `close(ch)`: the panic raised, if any, and the channel afterwards. -/
def Out.close (o : Out) : Option String × Out :=
  if o.closed then (some closeFault, o) else (none, { closed := true })

/-- What an aggregator returns: a channel it was given (or nil), or the channel it made. -/
inductive Signal where
  | given (c : ChanRef)
  | made
deriving DecidableEq, Repr

/-- The sources when an aggregator is called: `pending i` values wait in source `i`,
none has been taken, and source `i` is closed when `closed i` holds. -/
def initSrcs (pending : Nat → Nat) (closed : Nat → Bool) : Srcs :=
  fun i => { sent := pending i, taken := 0, closed := closed i }

/-- The steps of `acts` are taken in order, each by `step`, from the sources and the
aggregator state `st`; `none` when one of them cannot be taken. -/
def runSteps {S A : Type} (step : Srcs → S → A → Option (Srcs × S)) :
    List A → Srcs × S → Option (Srcs × S)
  | [], st => some st
  | a :: rest, st =>
    match step st.1 st.2 a with
    | some st1 => runSteps step rest st1
    | none => none

/-- What one step does to the sources: nothing, or what one action of `EnvAct` does (a
receive by a goroutine of the aggregator is a `take`). -/
def SrcsStep (srcs srcs1 : Srcs) : Prop := srcs1 = srcs ∨ ∃ e, envStep srcs e = some srcs1

/-! ## `or1`: one goroutine per channel -/

/-- Where a watcher goroutine of `or1` stands: not started, blocked in its `select`,
past `case <-c` and about to call `once.Do`, or returned. -/
inductive Watcher where
  | idle
  | selecting
  | received
  | exited
deriving DecidableEq, Repr

/-- The state of one call of `or1`: its argument, the channel `out`, the `done` flag of
`once`, the number of iterations the spawning loop has run, the watchers, the number of
times `close(out)` was executed and the panic raised, if any. -/
structure Or1 where
  chans : List ChanRef
  out : Out
  once : Bool
  spawned : Nat
  ws : Nat → Watcher
  closes : Nat
  panicked : Option String

/-- The function `or1`: the state when it returns; the channel returned is `out`. -/
def or1 (chans : List ChanRef) : Or1 :=
  { chans := chans, out := { closed := false }, once := false, spawned := 0,
    ws := fun _ => Watcher.idle, closes := 0, panicked := none }

/-- The channel `or1` returns: always the `out` it made. -/
def or1Signal (_chans : List ChanRef) : Signal := Signal.made

/-- The steps of the goroutines of `or1` and of the rest of the program. -/
inductive Act1 where
  | env (e : EnvAct)
  | spawn
  | recvSrc (w : Nat)
  | recvOut (w : Nat)
  | onceDo (w : Nat)
deriving DecidableEq, Repr

/-- The call `once.Do(func() { close(out) })`. -/
def Or1.onceDo (s : Or1) : Or1 :=
  if s.once then s
  else
    let r := s.out.close
    { s with once := true, out := r.2, closes := s.closes + 1,
             panicked := if s.panicked.isSome then s.panicked else r.1 }

/-- One step of `or1`; `none` when the step cannot be taken in this state. -/
def Or1.step (srcs : Srcs) (s : Or1) : Act1 → Option (Srcs × Or1)
  | .env e =>
    match envStep srcs e with
    | some srcs1 => some (srcs1, s)
    | none => none
  | .spawn =>
    if s.spawned < s.chans.length then
      some (srcs, { s with spawned := s.spawned + 1,
                           ws := Function.update s.ws s.spawned Watcher.selecting })
    else none
  | .recvSrc w =>
    match s.ws w, s.chans[w]? with
    | .selecting, some c =>
      match srcRecv srcs c with
      | some srcs1 => some (srcs1, { s with ws := Function.update s.ws w Watcher.received })
      | none => none
    | _, _ => none
  | .recvOut w =>
    match s.ws w with
    | .selecting =>
      if s.out.closed then some (srcs, { s with ws := Function.update s.ws w Watcher.exited })
      else none
    | _ => none
  | .onceDo w =>
    match s.ws w with
    | .received =>
      some (srcs, { s.onceDo with ws := Function.update s.ws w Watcher.exited })
    | _ => none

/-- The steps of `acts` are taken in order. -/
def Or1.run (acts : List Act1) (st : Srcs × Or1) : Option (Srcs × Or1) :=
  runSteps (fun srcs s a => Or1.step srcs s a) acts st

/-! ## `or2`: one goroutine and `reflect.Select` -/

/-- Where the goroutine of `or2` stands: blocked in `reflect.Select`, returned from it with
the deferred `close(orDone)` still to run, or returned. -/
inductive Pc where
  | selecting
  | returning
  | exited
deriving DecidableEq, Repr

/-- The state of one call of `or2`: either it returned a channel it was given (or nil) and
started nothing, or it made `orDone` and started its goroutine. -/
inductive Or2 where
  | given (c : ChanRef)
  | running (channels : List ChanRef) (pc : Pc) (orDone : Out) (closes : Nat)
      (panicked : Option String)

/-- The function `or2`: the state when it returns. -/
def or2 (channels : List ChanRef) : Or2 :=
  match channels with
  | [] => Or2.given none
  | [c] => Or2.given c
  | _ => Or2.running channels Pc.selecting { closed := false } 0 none

/-- The channel `or2` returns. -/
def Or2.signal : Or2 → Signal
  | .given c => Signal.given c
  | .running _ _ _ _ _ => Signal.made

/-- The number of cases `reflect.Select` supports; with more it panics. -/
def maxSelectCases : Nat := 65536

/-- The panic value of `reflect.Select` called with more than `maxSelectCases` cases. -/
def selectFault : String := "reflect.Select: too many cases (max 65536)"

/-- The steps of the goroutine of `or2` and of the rest of the program: `select i` is
`reflect.Select` choosing the receive case built for `channels[i]`, `selectPanic` is
`reflect.Select` panicking because it was given too many cases. -/
inductive Act2 where
  | env (e : EnvAct)
  | select (i : Nat)
  | selectPanic
  | deferClose
deriving DecidableEq, Repr

/-- One step of `or2`; `none` when the step cannot be taken in this state.  A goroutine
that panics runs its deferred `close(orDone)` before the program stops. -/
def Or2.step (srcs : Srcs) (s : Or2) : Act2 → Option (Srcs × Or2)
  | .env e =>
    match envStep srcs e with
    | some srcs1 => some (srcs1, s)
    | none => none
  | .select i =>
    match s with
    | .running channels .selecting orDone closes panicked =>
      if maxSelectCases < channels.length then none
      else
        match channels[i]? with
        | some c =>
          match srcRecv srcs c with
          | some srcs1 => some (srcs1, Or2.running channels Pc.returning orDone closes panicked)
          | none => none
        | none => none
    | _ => none
  | .selectPanic =>
    match s with
    | .running channels .selecting orDone closes panicked =>
      if maxSelectCases < channels.length then
        some (srcs, Or2.running channels Pc.returning orDone closes
          (if panicked.isSome then panicked else some selectFault))
      else none
    | _ => none
  | .deferClose =>
    match s with
    | .running channels .returning orDone closes panicked =>
      let r := orDone.close
      some (srcs, Or2.running channels Pc.exited r.2 (closes + 1)
        (if panicked.isSome then panicked else r.1))
    | _ => none

/-- The steps of `acts` are taken in order. -/
def Or2.run (acts : List Act2) (st : Srcs × Or2) : Option (Srcs × Or2) :=
  runSteps (fun srcs s a => Or2.step srcs s a) acts st

/-- The channel `or2` returned is ready for a receive. -/
def Or2.fired (srcs : Srcs) : Or2 → Bool
  | .given c => srcReady srcs c
  | .running _ _ orDone _ _ => orDone.closed

/-- The number of times `close(orDone)` was executed. -/
def Or2.closeCount : Or2 → Nat
  | .given _ => 0
  | .running _ _ _ closes _ => closes

/-- The panic raised by the goroutine, if any. -/
def Or2.fault : Or2 → Option String
  | .given _ => none
  | .running _ _ _ _ panicked => panicked

/-! ## `or3`: recursive pairing -/

/-- The channel `orDone` made by one call of `or3`, the number of times its deferred
`close(orDone)` was executed, and the panic raised by its goroutine, if any. -/
structure Cell where
  orDone : Out
  closes : Nat
  panicked : Option String
deriving DecidableEq, Repr

/-- The statement `orDone := make(chan interface{})`. -/
def Cell.fresh : Cell := { orDone := { closed := false }, closes := 0, panicked := none }

/-- The deferred call `close(orDone)`. -/
def Cell.close (d : Cell) : Cell :=
  let r := d.orDone.close
  { orDone := r.2, closes := d.closes + 1,
    panicked := if d.panicked.isSome then d.panicked else r.1 }

/-- The state of one call of `or3`: it returned a channel it was given (or nil) and started
nothing; or it made `orDone` and started a goroutine that has not run yet; or that
goroutine has evaluated the two operands of its `select`, themselves calls of `or3` or
given channels, and stands at `pc`. -/
inductive Or3 where
  | given (c : ChanRef)
  | made (d : Cell) (channels : List ChanRef)
  | node (pc : Pc) (d : Cell) (l r : Or3)
deriving Repr

/-- The function `or3`: the state when it returns. -/
def or3 (channels : List ChanRef) : Or3 :=
  match channels with
  | [] => Or3.given none
  | [c] => Or3.given c
  | a :: b :: rest => Or3.made Cell.fresh (a :: b :: rest)

/-- The two channels the goroutine of `or3` waits on: the two given channels when there are
exactly two, otherwise what `or3` returns for each half. -/
def or3Operands (channels : List ChanRef) : Or3 × Or3 :=
  match channels with
  | [a, b] => (Or3.given a, Or3.given b)
  | _ =>
    (or3 (channels.take (channels.length / 2)), or3 (channels.drop (channels.length / 2)))

/-- The channel `or3` returns. -/
def Or3.signal : Or3 → Signal
  | .given c => Signal.given c
  | .made _ _ => Signal.made
  | .node _ _ _ _ => Signal.made

/-- The channel a call of `or3` returned is ready for a receive. -/
def Or3.fired (srcs : Srcs) : Or3 → Bool
  | .given c => srcReady srcs c
  | .made d _ => d.orDone.closed
  | .node _ d _ _ => d.orDone.closed

/-- A receive from the channel a call of `or3` returned: the sources afterwards, `none`
when the receive cannot proceed. -/
def Or3.recvFrom (srcs : Srcs) : Or3 → Option Srcs
  | .given c => srcRecv srcs c
  | .made d _ => if d.orDone.closed then some srcs else none
  | .node _ d _ _ => if d.orDone.closed then some srcs else none

/-- The steps of one goroutine of `or3`: start running and evaluate the operands of the
`select`, take its first case, take its second case, run the deferred `close`. -/
inductive NodeAct where
  | start
  | recvLeft
  | recvRight
  | deferClose
deriving DecidableEq, Repr

/-- The steps of the goroutines of `or3` and of the rest of the program; a goroutine is
named by the path from the outermost call to the call that started it (`false`: first
operand, `true`: second operand). -/
inductive Act3 where
  | env (e : EnvAct)
  | node (path : List Bool) (a : NodeAct)
deriving DecidableEq, Repr

/-- One step of the goroutine of this call. -/
def Or3.stepHere (srcs : Srcs) : Or3 → NodeAct → Option (Srcs × Or3)
  | .made d channels, .start =>
    some (srcs, Or3.node Pc.selecting d (or3Operands channels).1 (or3Operands channels).2)
  | .node .selecting d l r, .recvLeft =>
    match l.recvFrom srcs with
    | some srcs1 => some (srcs1, Or3.node Pc.returning d l r)
    | none => none
  | .node .selecting d l r, .recvRight =>
    match r.recvFrom srcs with
    | some srcs1 => some (srcs1, Or3.node Pc.returning d l r)
    | none => none
  | .node .returning d l r, .deferClose => some (srcs, Or3.node Pc.exited d.close l r)
  | _, _ => none

/-- One step of the goroutine at `path`. -/
def Or3.stepAt (srcs : Srcs) : Or3 → List Bool → NodeAct → Option (Srcs × Or3)
  | t, [], a => t.stepHere srcs a
  | .node pc d l r, false :: rest, a =>
    match l.stepAt srcs rest a with
    | some (srcs1, l1) => some (srcs1, Or3.node pc d l1 r)
    | none => none
  | .node pc d l r, true :: rest, a =>
    match r.stepAt srcs rest a with
    | some (srcs1, r1) => some (srcs1, Or3.node pc d l r1)
    | none => none
  | _, _ :: _, _ => none

/-- One step of `or3`; `none` when the step cannot be taken in this state. -/
def Or3.step (srcs : Srcs) (t : Or3) : Act3 → Option (Srcs × Or3)
  | .env e =>
    match envStep srcs e with
    | some srcs1 => some (srcs1, t)
    | none => none
  | .node path a => t.stepAt srcs path a

/-- The steps of `acts` are taken in order. -/
def Or3.run (acts : List Act3) (st : Srcs × Or3) : Option (Srcs × Or3) :=
  runSteps (fun srcs s a => Or3.step srcs s a) acts st

/-- The number of times the `close(orDone)` of this call was executed. -/
def Or3.closeCount : Or3 → Nat
  | .given _ => 0
  | .made d _ => d.closes
  | .node _ d _ _ => d.closes

/-- The panic raised by the goroutine of this call, if any. -/
def Or3.fault : Or3 → Option String
  | .given _ => none
  | .made d _ => d.panicked
  | .node _ d _ _ => d.panicked

/-- The channels given to this call and not made by it or by the calls below it. -/
def Or3.sources : Or3 → List ChanRef
  | .given c => [c]
  | .made _ channels => channels
  | .node _ _ l r => l.sources ++ r.sources

/-- The channel `orDone` is open and its `close` has not been executed. -/
def Cell.Open (d : Cell) : Prop := d.orDone.closed = false ∧ d.closes = 0 ∧ d.panicked = none

/-- The channel `orDone` is closed, by one `close` that raised no panic. -/
def Cell.Done (d : Cell) : Prop := d.orDone.closed = true ∧ d.closes = 1 ∧ d.panicked = none

/-- The invariant of the calls of `or3`: in every call, here and below, `orDone` is
closed exactly when the goroutine has returned, by a single `close`; a goroutine that has
not run yet was given at least two channels. -/
def Or3.Inv : Or3 → Prop
  | .given _ => True
  | .made d channels => d.Open ∧ 2 ≤ channels.length
  | .node pc d l r => (if pc = Pc.exited then d.Done else d.Open) ∧ l.Inv ∧ r.Inv

/-- Every goroutine, here and below, that is past its `select` was given a channel that
has become ready. -/
def Or3.Just (srcs : Srcs) : Or3 → Prop
  | .given _ => True
  | .made _ _ => True
  | .node pc _ l r =>
    (pc ≠ Pc.selecting → ∃ c, c ∈ l.sources ++ r.sources ∧ srcFired srcs c = true) ∧
    l.Just srcs ∧ r.Just srcs

/-- The invariant of `or1`: `out` is closed exactly when `once` is done, by a single
`close` that raised no panic; a watcher past `case <-c` received from a channel of the
argument that has become ready, and so did the watcher that closed `out`. -/
def Or1.Inv (chans : List ChanRef) (st : Srcs × Or1) : Prop :=
  st.2.chans = chans ∧ st.2.out.closed = st.2.once ∧
  st.2.closes = (if st.2.once then 1 else 0) ∧ st.2.panicked = none ∧
  (∀ w, st.2.ws w = Watcher.received →
    ∃ c, c ∈ chans ∧ srcFired st.1 c = true) ∧
  (st.2.once = true → ∃ c, c ∈ chans ∧ srcFired st.1 c = true)

/-- The invariant of `or2`: `orDone` is closed exactly when the goroutine has returned, by
a single `close`; past `reflect.Select`, either nothing has panicked and a channel of the
argument has become ready, or `reflect.Select` has panicked, having been given more than
`maxSelectCases` channels. -/
def Or2.Inv (chans : List ChanRef) (srcs : Srcs) : Or2 → Prop
  | .given c => or2 chans = Or2.given c
  | .running channels pc orDone closes panicked =>
    channels = chans ∧
    (if pc = Pc.exited then orDone.closed = true ∧ closes = 1
     else orDone.closed = false ∧ closes = 0) ∧
    (pc = Pc.selecting → panicked = none) ∧
    (pc ≠ Pc.selecting →
      (panicked = none ∧ ∃ c, c ∈ chans ∧ srcFired srcs c = true) ∨
      (panicked = some selectFault ∧ maxSelectCases < chans.length))

/-! ## Example runs -/

/-- Three sources, all open and empty when the aggregator is called. -/
def threeChans : List ChanRef := [some 0, some 1, some 2]

/-- Sources that are all open and empty. -/
def idleSrcs : Srcs := initSrcs (fun _ => 0) (fun _ => false)

/-- A run of `or1` in which two sources fire, two watchers receive and one closes `out`. -/
def raceActs1 : List Act1 :=
  [Act1.env (EnvAct.send 0), Act1.env (EnvAct.send 1), Act1.spawn, Act1.spawn,
   Act1.recvSrc 0, Act1.recvSrc 1, Act1.onceDo 1]

/-- The run goes on: the other watcher calls `once.Do`, the third watcher starts and
takes `case <-out`. -/
def moreActs1 : List Act1 := [Act1.onceDo 0, Act1.spawn, Act1.recvOut 2]

/-- A run of `or2` in which two sources fire and `reflect.Select` chooses the second. -/
def raceActs2 : List Act2 :=
  [Act2.env (EnvAct.send 0), Act2.env (EnvAct.send 1), Act2.select 1, Act2.deferClose]

/-- The run goes on: the third source is closed. -/
def moreActs2 : List Act2 := [Act2.env (EnvAct.close 2)]

/-- A run of `or3` in which two sources fire and the outer goroutine takes its first case. -/
def raceActs3 : List Act3 :=
  [Act3.env (EnvAct.send 0), Act3.env (EnvAct.send 2), Act3.node [] NodeAct.start,
   Act3.node [true] NodeAct.start, Act3.node [] NodeAct.recvLeft,
   Act3.node [] NodeAct.deferClose]

/-- The run goes on: the inner goroutine takes its second case and closes its channel. -/
def moreActs3 : List Act3 :=
  [Act3.node [true] NodeAct.recvRight, Act3.node [true] NodeAct.deferClose]

/-- One more source than `reflect.Select` supports: 65537 distinct sources. -/
def manyChans : List ChanRef :=
  some 0 :: some 1 :: (List.range 65535).map (fun i => some (i + 2))

/-- A run of `or2` in which `reflect.Select` panics and the deferred `close` runs. -/
def panicActs2 : List Act2 := [Act2.selectPanic, Act2.deferClose]

/-! # Properties of the locks -/

theorem newMutexChan_eq : NewMutexChan = some { ch := { cap := 1, len := 1 } } := by
  decide

theorem newMutexTimeOut_eq : NewMutexTimeOut = some { ch := { cap := 1, len := 1 } } := by
  decide

theorem MutexChan.tryLock_of_unlocked (m : MutexChan) (h : 0 < m.ch.len) :
    m.TryLock = (true, { ch := { m.ch with len := m.ch.len - 1 } }) := by
  simp [MutexChan.TryLock, Chan.recv, h]

theorem MutexChan.tryLock_of_locked (m : MutexChan) (h : m.ch.len = 0) :
    m.TryLock = (false, m) := by
  simp [MutexChan.TryLock, Chan.recv, h]

/-- C1: in every state of a `MutexChan`, `TryLock` returns `true` exactly when the lock is
unlocked, and then leaves it locked; on a locked lock it returns `false` and leaves the
state as it is; on the lock built by `NewMutexChan` it returns `true`. -/
theorem MutexChan.tryLock_contract (m : MutexChan) (hwf : m.WF) :
    (m.TryLock.1 = true ↔ m.unlocked) ∧
    (m.unlocked → m.TryLock.1 = true ∧ m.TryLock.2.locked ∧ m.TryLock.2.WF) ∧
    (m.locked → m.TryLock.1 = false ∧ m.TryLock.2 = m ∧ m.TryLock.2.locked) ∧
    (∃ m0, NewMutexChan = some m0 ∧ m0.WF ∧ m0.unlocked ∧ m0.TryLock.1 = true) := by
  obtain ⟨hcap, hlen⟩ := hwf
  refine ⟨?_, ?_, ?_, ?_⟩
  · by_cases h : 0 < m.ch.len
    · simp [MutexChan.tryLock_of_unlocked m h, MutexChan.unlocked, h]
    · have h0 : m.ch.len = 0 := by omega
      simp [MutexChan.tryLock_of_locked m h0, MutexChan.unlocked, h0]
  · intro h
    have h1 : 0 < m.ch.len := h
    rw [MutexChan.tryLock_of_unlocked m h1]
    refine ⟨rfl, ?_, ?_, ?_⟩
    · show m.ch.len - 1 = 0
      omega
    · exact hcap
    · show m.ch.len - 1 ≤ 1
      omega
  · intro h
    have h0 : m.ch.len = 0 := h
    rw [MutexChan.tryLock_of_locked m h0]
    exact ⟨rfl, rfl, h⟩
  · exact ⟨_, newMutexChan_eq, by decide, by decide, by decide⟩

theorem MutexChan.tryLock_contract_witness :
    ({ ch := { cap := 1, len := 0 } } : MutexChan).WF ∧
    (({ ch := { cap := 1, len := 0 } } : MutexChan).TryLock.1 = true ↔
      ({ ch := { cap := 1, len := 0 } } : MutexChan).unlocked) ∧
    (({ ch := { cap := 1, len := 0 } } : MutexChan).TryLock.1 = false ∧
      ({ ch := { cap := 1, len := 0 } } : MutexChan).TryLock.2 =
        { ch := { cap := 1, len := 0 } }) :=
  ⟨by decide,
   (MutexChan.tryLock_contract { ch := { cap := 1, len := 0 } } (by decide)).1,
   ((MutexChan.tryLock_contract { ch := { cap := 1, len := 0 } } (by decide)).2.2.1
      (by decide)).1,
   ((MutexChan.tryLock_contract { ch := { cap := 1, len := 0 } } (by decide)).2.2.1
      (by decide)).2.1⟩

/-! ## `Unlock` -/

theorem mutexChan_unlock_of_unlocked (m : MutexChan) (hwf : m.WF) (h : 0 < m.ch.len) :
    m.Unlock = (some unlockFault, m) := by
  obtain ⟨hcap, hlen⟩ := hwf
  have : ¬ m.ch.len < m.ch.cap := by omega
  simp [MutexChan.Unlock, Chan.send, this]

theorem mutexChan_unlock_of_locked (m : MutexChan) (hwf : m.WF) (h : m.ch.len = 0) :
    m.Unlock = (none, { ch := { m.ch with len := 1 } }) := by
  obtain ⟨hcap, hlen⟩ := hwf
  simp [MutexChan.Unlock, Chan.send, h, hcap]

theorem mutexTimeOut_unlock_of_unlocked (m : MutexTimeOut) (hwf : m.WF) (h : 0 < m.ch.len) :
    m.Unlock = (some unlockFault, m) := by
  obtain ⟨hcap, hlen⟩ := hwf
  have : ¬ m.ch.len < m.ch.cap := by omega
  simp [MutexTimeOut.Unlock, Chan.send, this]

theorem mutexTimeOut_unlock_of_locked (m : MutexTimeOut) (hwf : m.WF) (h : m.ch.len = 0) :
    m.Unlock = (none, { ch := { m.ch with len := 1 } }) := by
  obtain ⟨hcap, hlen⟩ := hwf
  simp [MutexTimeOut.Unlock, Chan.send, h, hcap]

theorem mutexChan_lock_of_unlocked (m : MutexChan) (h : 0 < m.ch.len) :
    m.Lock = some { ch := { m.ch with len := m.ch.len - 1 } } := by
  simp [MutexChan.Lock, Chan.recv, h]

theorem mutexChan_lock_of_locked (m : MutexChan) (h : m.ch.len = 0) : m.Lock = none := by
  simp [MutexChan.Lock, Chan.recv, h]

theorem mutexTimeOut_lock_of_unlocked (m : MutexTimeOut) (h : 0 < m.ch.len) :
    m.Lock = some { ch := { m.ch with len := m.ch.len - 1 } } := by
  simp [MutexTimeOut.Lock, Chan.recv, h]

theorem mutexTimeOut_lock_of_locked (m : MutexTimeOut) (h : m.ch.len = 0) : m.Lock = none := by
  simp [MutexTimeOut.Lock, Chan.recv, h]

theorem mutexChan_pairs_of_unlocked (m : MutexChan) (hwf : m.WF) (h : m.unlocked) (n : Nat) :
    m.lockUnlockPairs n = some (none, m) := by
  induction n with
  | zero => rfl
  | succ n ih =>
    have h1 : 0 < m.ch.len := h
    have hlen : m.ch.len = 1 := by have := hwf.2; omega
    have hw : ({ ch := { m.ch with len := m.ch.len - 1 } } : MutexChan).WF :=
      ⟨hwf.1, by show m.ch.len - 1 ≤ 1; omega⟩
    have h0 : ({ ch := { m.ch with len := m.ch.len - 1 } } : MutexChan).ch.len = 0 := by
      show m.ch.len - 1 = 0
      omega
    have hback : ({ ch := { ({ ch := { m.ch with len := m.ch.len - 1 } } : MutexChan).ch with
        len := 1 } } : MutexChan) = m := by
      cases m with
      | mk ch =>
        cases ch with
        | mk cap len =>
          simp only at hlen
          simp [hlen]
    simp only [MutexChan.lockUnlockPairs, mutexChan_lock_of_unlocked m h1,
      mutexChan_unlock_of_locked _ hw h0, hback, ih]

theorem mutexTimeOut_pairs_of_unlocked (m : MutexTimeOut) (hwf : m.WF) (h : m.unlocked)
    (n : Nat) : m.lockUnlockPairs n = some (none, m) := by
  induction n with
  | zero => rfl
  | succ n ih =>
    have h1 : 0 < m.ch.len := h
    have hlen : m.ch.len = 1 := by have := hwf.2; omega
    have hw : ({ ch := { m.ch with len := m.ch.len - 1 } } : MutexTimeOut).WF :=
      ⟨hwf.1, by show m.ch.len - 1 ≤ 1; omega⟩
    have h0 : ({ ch := { m.ch with len := m.ch.len - 1 } } : MutexTimeOut).ch.len = 0 := by
      show m.ch.len - 1 = 0
      omega
    have hback : ({ ch := { ({ ch := { m.ch with len := m.ch.len - 1 } } : MutexTimeOut).ch with
        len := 1 } } : MutexTimeOut) = m := by
      cases m with
      | mk ch =>
        cases ch with
        | mk cap len =>
          simp only at hlen
          simp [hlen]
    simp only [MutexTimeOut.lockUnlockPairs, mutexTimeOut_lock_of_unlocked m h1,
      mutexTimeOut_unlock_of_locked _ hw h0, hback, ih]

/-- C2: in every state of a `MutexChan` and of a `MutexTimeOut`, `Unlock` panics with
"unlock of unlocked mutex" exactly when the lock is unlocked, and then leaves the state as
it is; on a locked lock it panics with nothing and leaves the lock unlocked.  So `Unlock`
on a freshly built lock panics, and any number of `Lock` then `Unlock` pairs run from an
unlocked lock without panic or blocking and leave it unlocked. -/
theorem unlock_fault_contract (m : MutexChan) (hm : m.WF) (t : MutexTimeOut) (ht : t.WF)
    (n : Nat) :
    ((m.Unlock.1 = some unlockFault ↔ m.unlocked) ∧ (m.Unlock.1 = none ↔ m.locked) ∧
      (m.unlocked → m.Unlock.2 = m) ∧
      (m.locked → m.Unlock.2.unlocked ∧ m.Unlock.2.WF) ∧
      (m.unlocked → m.lockUnlockPairs n = some (none, m))) ∧
    ((t.Unlock.1 = some unlockFault ↔ t.unlocked) ∧ (t.Unlock.1 = none ↔ t.locked) ∧
      (t.unlocked → t.Unlock.2 = t) ∧
      (t.locked → t.Unlock.2.unlocked ∧ t.Unlock.2.WF) ∧
      (t.unlocked → t.lockUnlockPairs n = some (none, t))) ∧
    (∃ m0, NewMutexChan = some m0 ∧ m0.Unlock.1 = some unlockFault ∧
      m0.lockUnlockPairs n = some (none, m0) ∧ m0.unlocked) ∧
    (∃ t0, NewMutexTimeOut = some t0 ∧ t0.Unlock.1 = some unlockFault ∧
      t0.lockUnlockPairs n = some (none, t0) ∧ t0.unlocked) := by
  refine ⟨?_, ?_, ?_, ?_⟩
  · by_cases h : 0 < m.ch.len
    · have hl : ¬ m.ch.len = 0 := by omega
      simp [mutexChan_unlock_of_unlocked m hm h, MutexChan.unlocked, MutexChan.locked, h, hl,
        mutexChan_pairs_of_unlocked m hm h]
    · have h0 : m.ch.len = 0 := by omega
      simp [mutexChan_unlock_of_locked m hm h0, MutexChan.unlocked, MutexChan.locked, h0,
        MutexChan.WF, hm.1]
  · by_cases h : 0 < t.ch.len
    · have hl : ¬ t.ch.len = 0 := by omega
      simp [mutexTimeOut_unlock_of_unlocked t ht h, MutexTimeOut.unlocked, MutexTimeOut.locked,
        h, hl, mutexTimeOut_pairs_of_unlocked t ht h]
    · have h0 : t.ch.len = 0 := by omega
      simp [mutexTimeOut_unlock_of_locked t ht h0, MutexTimeOut.unlocked, MutexTimeOut.locked,
        h0, MutexTimeOut.WF, ht.1]
  · refine ⟨_, newMutexChan_eq, by decide, ?_, by decide⟩
    exact mutexChan_pairs_of_unlocked _ (by decide) (by decide) n
  · refine ⟨_, newMutexTimeOut_eq, by decide, ?_, by decide⟩
    exact mutexTimeOut_pairs_of_unlocked _ (by decide) (by decide) n

theorem unlock_fault_contract_witness :
    ({ ch := { cap := 1, len := 1 } } : MutexChan).WF ∧
    ({ ch := { cap := 1, len := 0 } } : MutexTimeOut).WF ∧
    (({ ch := { cap := 1, len := 1 } } : MutexChan).Unlock.1 = some unlockFault ↔
      ({ ch := { cap := 1, len := 1 } } : MutexChan).unlocked) ∧
    (({ ch := { cap := 1, len := 0 } } : MutexTimeOut).Unlock.1 = none ↔
      ({ ch := { cap := 1, len := 0 } } : MutexTimeOut).locked) :=
  ⟨by decide, by decide,
   (unlock_fault_contract { ch := { cap := 1, len := 1 } } (by decide)
      { ch := { cap := 1, len := 0 } } (by decide) 3).1.1,
   (unlock_fault_contract { ch := { cap := 1, len := 1 } } (by decide)
      { ch := { cap := 1, len := 0 } } (by decide) 3).2.1.2.1⟩

/-! ## One holder at a time -/

theorem MutexChan.race_of_locked (order : List Nat) (m : MutexChan) (h : m.ch.len = 0) :
    m.raceTryLock order = (order.map (fun c => (c, false)), m) := by
  induction order with
  | nil => rfl
  | cons c rest ih =>
    simp [MutexChan.raceTryLock, MutexChan.tryLock_of_locked m h, ih]

theorem MutexChan.race_of_unlocked (c : Nat) (rest : List Nat) (m : MutexChan) (hwf : m.WF)
    (h : 0 < m.ch.len) :
    (m.raceTryLock (c :: rest)).1 = (c, true) :: rest.map (fun c => (c, false)) := by
  have h0 : ({ ch := { m.ch with len := m.ch.len - 1 } } : MutexChan).ch.len = 0 := by
    show m.ch.len - 1 = 0
    have := hwf.2
    omega
  simp [MutexChan.raceTryLock, MutexChan.tryLock_of_unlocked m h,
    MutexChan.race_of_locked rest _ h0]

theorem lockSys_inv_step (s s1 : LockSys) (op : LockOp) (hinv : s.Inv)
    (hstep : s.step op = some s1) : s1.Inv := by
  obtain ⟨hcap, hsum⟩ := hinv
  have hwf : s.m.WF := ⟨hcap, by omega⟩
  by_cases h : 0 < s.m.ch.len
  · cases op with
    | lock =>
      simp only [LockSys.step, mutexChan_lock_of_unlocked s.m h, Option.some.injEq] at hstep
      subst hstep
      exact ⟨hcap, by show s.holders + 1 + (s.m.ch.len - 1) = 1; omega⟩
    | tryLock =>
      simp only [LockSys.step, MutexChan.tryLock_of_unlocked s.m h, Option.some.injEq] at hstep
      subst hstep
      exact ⟨hcap, by show s.holders + 1 + (s.m.ch.len - 1) = 1; omega⟩
    | unlock =>
      simp only [LockSys.step, mutexChan_unlock_of_unlocked s.m hwf h,
        Option.some.injEq] at hstep
      subst hstep
      exact ⟨hcap, hsum⟩
  · have h0 : s.m.ch.len = 0 := by omega
    cases op with
    | lock =>
      simp [LockSys.step, mutexChan_lock_of_locked s.m h0] at hstep
    | tryLock =>
      simp only [LockSys.step, MutexChan.tryLock_of_locked s.m h0, Option.some.injEq] at hstep
      subst hstep
      exact ⟨hcap, hsum⟩
    | unlock =>
      simp only [LockSys.step, mutexChan_unlock_of_locked s.m hwf h0,
        Option.some.injEq] at hstep
      subst hstep
      exact ⟨hcap, by show s.holders - 1 + 1 = 1; omega⟩

theorem lockSys_inv_run (ops : List LockOp) (s s1 : LockSys) (hinv : s.Inv)
    (hrun : LockSys.run ops s = some s1) : s1.Inv := by
  induction ops generalizing s with
  | nil =>
    simp only [LockSys.run, Option.some.injEq] at hrun
    subst hrun
    exact hinv
  | cons op ops ih =>
    simp only [LockSys.run] at hrun
    cases hs : s.step op with
    | none => simp [hs] at hrun
    | some s2 =>
      simp only [hs] at hrun
      exact ih s2 (lockSys_inv_step s s2 op hinv hs) hrun

/-- C3: when `N ≥ 1` `TryLock` calls take effect in any order on one unlocked `MutexChan`,
exactly one returns `true` and the other `N - 1` return `false`; and in every state
reachable from `NewMutexChan()` by `Lock`, `TryLock` and `Unlock` steps the number of
holders plus the number of tokens in the channel is one, so there is at most one holder. -/
theorem tryLock_race_single_winner (N : Nat) (hN : 1 ≤ N) (order : List Nat)
    (hperm : order.Perm (List.range N)) (m : MutexChan) (hwf : m.WF) (hu : m.unlocked)
    (s : LockSys) (hs : s.Reachable) :
    ((m.raceTryLock order).1.filter (fun r => r.2)).length = 1 ∧
    ((m.raceTryLock order).1.filter (fun r => !r.2)).length = N - 1 ∧
    (m.raceTryLock order).1.map Prod.fst = order ∧
    s.holders + s.m.ch.len = 1 ∧ s.holders ≤ 1 := by
  have hlen : order.length = N := by
    rw [hperm.length_eq, List.length_range]
  have hinv : s.Inv := by
    obtain ⟨m0, ops, h0, hrun⟩ := hs
    rw [newMutexChan_eq, Option.some.injEq] at h0
    subst h0
    exact lockSys_inv_run ops { m := { ch := { cap := 1, len := 1 } }, holders := 0 } s
      ⟨rfl, rfl⟩ hrun
  have hfalse : ∀ l : List Nat, (l.map (fun c => (c, false))).filter (fun r => r.2) = [] := by
    intro l
    induction l with
    | nil => rfl
    | cons a l ih => simp
  have htrue : ∀ l : List Nat,
      ((l.map (fun c => (c, false))).filter (fun r => !r.2)).length = l.length := by
    intro l
    induction l with
    | nil => rfl
    | cons a l ih => simpa using ih
  have hfst : ∀ l : List Nat, (l.map (fun c => (c, false))).map Prod.fst = l := by
    intro l
    induction l with
    | nil => rfl
    | cons a l ih => simpa using ih
  cases order with
  | nil => simp at hlen; omega
  | cons c rest =>
    rw [MutexChan.race_of_unlocked c rest m hwf hu]
    simp only [List.length_cons] at hlen
    refine ⟨?_, ?_, ?_, hinv.2, by have := hinv.2; omega⟩
    · simp [List.filter_cons, hfalse]
    · simp only [List.filter_cons, Bool.not_true, Bool.false_eq_true, if_false, htrue]
      omega
    · simp [hfst]

theorem tryLock_race_single_winner_witness :
    (1 ≤ 3) ∧ [2, 0, 1].Perm (List.range 3) ∧
    ({ ch := { cap := 1, len := 1 } } : MutexChan).WF ∧
    ({ ch := { cap := 1, len := 1 } } : MutexChan).unlocked ∧
    LockSys.Reachable { m := { ch := { cap := 1, len := 0 } }, holders := 1 } ∧
    ((({ ch := { cap := 1, len := 1 } } : MutexChan).raceTryLock [2, 0, 1]).1.filter
      (fun r => r.2)).length = 1 ∧
    ((({ ch := { cap := 1, len := 1 } } : MutexChan).raceTryLock [2, 0, 1]).1.filter
      (fun r => !r.2)).length = 3 - 1 :=
  have hr : LockSys.Reachable { m := { ch := { cap := 1, len := 0 } }, holders := 1 } :=
    ⟨{ ch := { cap := 1, len := 1 } }, [LockOp.tryLock, LockOp.tryLock], by decide, by decide⟩
  ⟨by decide, by decide, by decide, by decide, hr,
   (tryLock_race_single_winner 3 (by decide) [2, 0, 1] (by decide)
      { ch := { cap := 1, len := 1 } } (by decide) (by decide) _ hr).1,
   (tryLock_race_single_winner 3 (by decide) [2, 0, 1] (by decide)
      { ch := { cap := 1, len := 1 } } (by decide) (by decide) _ hr).2.1⟩

/-! ## `IsLocked` on the token-holder locks -/

/-- C8: what `IsLocked` computes on the token-holder locks: it is `true` exactly when the
channel holds its token, that is when the lock is unlocked; so it is `true` on a freshly
built lock and `false` right after a `TryLock` or `Lock` that succeeded. -/
theorem isLocked_reports_token (m : MutexChan) (t : MutexTimeOut) :
    (m.IsLocked = true ↔ m.unlocked) ∧ (m.IsLocked = false ↔ m.locked) ∧
    (t.IsLocked = true ↔ t.unlocked) ∧ (t.IsLocked = false ↔ t.locked) ∧
    (∃ m0 m1, NewMutexChan = some m0 ∧ m0.unlocked ∧ m0.IsLocked = true ∧
      m0.TryLock = (true, m1) ∧ m1.locked ∧ m1.IsLocked = false ∧
      m0.Lock = some m1) ∧
    (∃ t0 t1, NewMutexTimeOut = some t0 ∧ t0.unlocked ∧ t0.IsLocked = true ∧
      t0.Lock = some t1 ∧ t1.locked ∧ t1.IsLocked = false) := by
  refine ⟨?_, ?_, ?_, ?_, ?_, ?_⟩
  · simp [MutexChan.IsLocked, MutexChan.unlocked]
  · simp [MutexChan.IsLocked, MutexChan.locked]
  · simp [MutexTimeOut.IsLocked, MutexTimeOut.unlocked]
  · simp [MutexTimeOut.IsLocked, MutexTimeOut.locked]
  · exact ⟨_, { ch := { cap := 1, len := 0 } }, newMutexChan_eq, by decide, by decide,
      by decide, by decide, by decide, by decide⟩
  · exact ⟨_, { ch := { cap := 1, len := 0 } }, newMutexTimeOut_eq, by decide, by decide,
      by decide, by decide, by decide⟩

/-! ## `Mutex.TryLock` -/

theorem mutexLocked_eq : mutexLocked = 1 := by decide

/-- C9, as the claim states it, fails at the state word `8` (unlocked, one waiter): the
indicator bit is clear and `TryLock` returns `false`. -/
theorem mutex_tryLock_waiter_word :
    ¬ ((Mutex.TryLock { mu := { state := 8, sema := 0 } }).1 = true ↔
        indicatorBit 8 = false) := by
  decide

/-- C9, amended: `Mutex.TryLock` is a compare-and-set of the whole state word against `0`:
it returns `true` exactly when the word is `0`, and the word is then `mutexLocked = 1`,
indicator bit set; otherwise it returns `false` and leaves the mutex as it is.  A `true`
result implies that the indicator bit was clear. -/
theorem mutex_tryLock_whole_word (m : Mutex) :
    (m.TryLock.1 = true ↔ m.mu.state = 0) ∧
    (m.TryLock.1 = true →
      m.TryLock.2.mu.state = mutexLocked ∧ mutexLocked = 1 ∧
      indicatorBit m.TryLock.2.mu.state = true ∧ indicatorBit m.mu.state = false ∧
      m.TryLock.2.mu.sema = m.mu.sema) ∧
    (m.TryLock.1 = false → m.TryLock.2 = m) := by
  by_cases h : m.mu.state = 0
  · simp [Mutex.TryLock, CompareAndSwapInt32, h, mutexLocked_eq, indicatorBit]
  · simp [Mutex.TryLock, CompareAndSwapInt32, h]

/-! ## `MutexTimeOut.TryLock` -/

theorem MutexTimeOut.wf_other (m : MutexTimeOut) (hwf : m.WF) (o : Other) :
    (m.other o).WF := by
  obtain ⟨hcap, hlen⟩ := hwf
  cases o with
  | acquire =>
    by_cases h : 0 < m.ch.len
    · simp only [MutexTimeOut.other, mutexTimeOut_lock_of_unlocked m h]
      exact ⟨hcap, by show m.ch.len - 1 ≤ 1; omega⟩
    · have h0 : m.ch.len = 0 := by omega
      simp only [MutexTimeOut.other, mutexTimeOut_lock_of_locked m h0]
      exact ⟨hcap, hlen⟩
  | release =>
    by_cases h : 0 < m.ch.len
    · simp only [MutexTimeOut.other, mutexTimeOut_unlock_of_unlocked m ⟨hcap, hlen⟩ h]
      exact ⟨hcap, hlen⟩
    · have h0 : m.ch.len = 0 := by omega
      simp only [MutexTimeOut.other, mutexTimeOut_unlock_of_locked m ⟨hcap, hlen⟩ h0]
      exact ⟨hcap, le_refl 1⟩

theorem MutexTimeOut.wf_others (os : List Other) (m : MutexTimeOut) (hwf : m.WF) :
    (m.others os).WF := by
  induction os generalizing m with
  | nil => exact hwf
  | cons o rest ih => exact ih _ (MutexTimeOut.wf_other m hwf o)

theorem MutexTimeOut.wf_atTick (m : MutexTimeOut) (hwf : m.WF) (env : Nat → List Other)
    (k : Nat) : (m.atTick env k).WF := by
  induction k with
  | zero => exact hwf
  | succ k ih => exact MutexTimeOut.wf_others _ _ ih

theorem MutexTimeOut.selectPoll_token (pick : Bool)
    (timer afterTimer : Timer) (now : Nat) (m : MutexTimeOut) (h : 0 < m.ch.len)
    (hf : afterTimer.fired now = false) :
    MutexTimeOut.selectPoll pick timer afterTimer now m =
      some { ok := true, m := { ch := { m.ch with len := m.ch.len - 1 } }, returnedAt := now,
             timer := timer.Stop, afterTimer := afterTimer } := by
  simp only [MutexTimeOut.selectPoll, Chan.recv, h, if_true, hf]

theorem MutexTimeOut.selectPoll_both (pick : Bool)
    (timer afterTimer : Timer) (now : Nat) (m : MutexTimeOut) (h : 0 < m.ch.len)
    (hf : afterTimer.fired now = true) :
    MutexTimeOut.selectPoll pick timer afterTimer now m =
      if pick then
        some { ok := true, m := { ch := { m.ch with len := m.ch.len - 1 } }, returnedAt := now,
               timer := timer.Stop, afterTimer := afterTimer }
      else
        some { ok := false, m := m, returnedAt := now, timer := timer,
               afterTimer := afterTimer } := by
  simp only [MutexTimeOut.selectPoll, Chan.recv, h, if_true, hf]

theorem MutexTimeOut.selectPoll_timer (pick : Bool)
    (timer afterTimer : Timer) (now : Nat) (m : MutexTimeOut) (h : ¬ 0 < m.ch.len)
    (hf : afterTimer.fired now = true) :
    MutexTimeOut.selectPoll pick timer afterTimer now m =
      some { ok := false, m := m, returnedAt := now, timer := timer,
             afterTimer := afterTimer } := by
  simp only [MutexTimeOut.selectPoll, Chan.recv, h, if_false, hf]

theorem MutexTimeOut.selectPoll_blocked (pick : Bool)
    (timer afterTimer : Timer) (now : Nat) (m : MutexTimeOut) (h : ¬ 0 < m.ch.len)
    (hf : afterTimer.fired now = false) :
    MutexTimeOut.selectPoll pick timer afterTimer now m = none := by
  simp only [MutexTimeOut.selectPoll, Chan.recv, h, if_false, hf]

theorem MutexTimeOut.selectWait_of_poll (env : Nat → List Other) (pick : Bool)
    (timer afterTimer : Timer) (fuel now : Nat) (m : MutexTimeOut) (r : TryLockResult)
    (h : MutexTimeOut.selectPoll pick timer afterTimer now m = some r) :
    MutexTimeOut.selectWait env pick timer afterTimer fuel now m = some r := by
  cases fuel with
  | zero => simp only [MutexTimeOut.selectWait, h]
  | succ k => simp only [MutexTimeOut.selectWait, h]

theorem MutexTimeOut.selectWait_wait (env : Nat → List Other) (pick : Bool)
    (timer afterTimer : Timer) (fuel now : Nat) (m : MutexTimeOut) (h : ¬ 0 < m.ch.len)
    (hf : afterTimer.fired now = false) :
    MutexTimeOut.selectWait env pick timer afterTimer (fuel + 1) now m =
      MutexTimeOut.selectWait env pick timer afterTimer fuel (now + 1)
        (m.others (env (now + 1))) := by
  simp only [MutexTimeOut.selectWait,
    MutexTimeOut.selectPoll_blocked pick timer afterTimer now m h hf]

theorem MutexTimeOut.selectPost_true (m0 : MutexTimeOut) (afterTimer : Timer) (start : Nat)
    (env : Nat → List Other) (timer : Timer) (now : Nat)
    (hbefore : ∀ k, start ≤ k → k < now → (m0.atTick env k).locked)
    (h : 0 < (m0.atTick env now).ch.len) :
    MutexTimeOut.SelectPost m0 afterTimer start env timer now
      { ok := true,
        m := { ch := { (m0.atTick env now).ch with len := (m0.atTick env now).ch.len - 1 } },
        returnedAt := now, timer := timer.Stop, afterTimer := afterTimer } := by
  refine ⟨le_refl _, le_max_left _ _, hbefore, ?_, ?_, rfl⟩
  · intro _
    refine ⟨h, ?_, rfl⟩
    show (m0.atTick env now).ch.len - 1 + 1 = (m0.atTick env now).ch.len
    omega
  · intro hc
    simp at hc

theorem MutexTimeOut.selectPost_false (m0 : MutexTimeOut) (afterTimer : Timer) (start : Nat)
    (env : Nat → List Other) (timer : Timer) (now : Nat)
    (hbefore : ∀ k, start ≤ k → k < now → (m0.atTick env k).locked)
    (hd : afterTimer.fireAt ≤ now) :
    MutexTimeOut.SelectPost m0 afterTimer start env timer now
      { ok := false, m := m0.atTick env now, returnedAt := now, timer := timer,
        afterTimer := afterTimer } := by
  refine ⟨le_refl _, le_max_left _ _, hbefore, ?_, ?_, rfl⟩
  · intro hc
    simp at hc
  · intro _
    exact ⟨rfl, hd, rfl⟩

theorem MutexTimeOut.after_fired (lag1 : Nat) (d : Int) (late now : Nat) :
    (After lag1 d late).fired now = decide ((After lag1 d late).fireAt ≤ now) := by
  simp [After, NewTimer, Timer.fired]

theorem MutexTimeOut.after_fireAt (lag1 : Nat) (d : Int) (late : Nat) :
    (After lag1 d late).fireAt = lag1 + d.toNat + late := rfl

theorem MutexTimeOut.selectWait_spec (m0 : MutexTimeOut) (d : Int) (lag1 late start : Nat)
    (env : Nat → List Other) (pick : Bool) (timer : Timer) (fuel : Nat) :
    ∀ now, (After lag1 d late).fireAt ≤ now + fuel →
    (∀ k, start ≤ k → k < now → (m0.atTick env k).locked) →
    ∃ r, MutexTimeOut.selectWait env pick timer (After lag1 d late) fuel now
        (m0.atTick env now) = some r ∧
      MutexTimeOut.SelectPost m0 (After lag1 d late) start env timer now r := by
  have ready : ∀ fuel now, (∀ k, start ≤ k → k < now → (m0.atTick env k).locked) →
      (0 < (m0.atTick env now).ch.len ∨ (After lag1 d late).fireAt ≤ now) →
      ∃ r, MutexTimeOut.selectWait env pick timer (After lag1 d late) fuel now
          (m0.atTick env now) = some r ∧
        MutexTimeOut.SelectPost m0 (After lag1 d late) start env timer now r := by
    intro fuel now hbefore hready
    by_cases h : 0 < (m0.atTick env now).ch.len
    · by_cases hd : (After lag1 d late).fireAt ≤ now
      · have hf : (After lag1 d late).fired now = true := by
          rw [MutexTimeOut.after_fired]
          exact decide_eq_true hd
        cases pick with
        | true =>
          exact ⟨_, MutexTimeOut.selectWait_of_poll env _ timer _ fuel now _ _
            (MutexTimeOut.selectPoll_both true timer _ now _ h hf),
            MutexTimeOut.selectPost_true m0 _ start env timer now hbefore h⟩
        | false =>
          exact ⟨_, MutexTimeOut.selectWait_of_poll env _ timer _ fuel now _ _
            (MutexTimeOut.selectPoll_both false timer _ now _ h hf),
            MutexTimeOut.selectPost_false m0 _ start env timer now hbefore hd⟩
      · have hf : (After lag1 d late).fired now = false := by
          rw [MutexTimeOut.after_fired]
          exact decide_eq_false hd
        exact ⟨_, MutexTimeOut.selectWait_of_poll env _ timer _ fuel now _ _
          (MutexTimeOut.selectPoll_token pick timer _ now _ h hf),
          MutexTimeOut.selectPost_true m0 _ start env timer now hbefore h⟩
    · have hd : (After lag1 d late).fireAt ≤ now := by
        cases hready with
        | inl h1 => exact absurd h1 h
        | inr h2 => exact h2
      have hf : (After lag1 d late).fired now = true := by
        rw [MutexTimeOut.after_fired]
        exact decide_eq_true hd
      exact ⟨_, MutexTimeOut.selectWait_of_poll env _ timer _ fuel now _ _
        (MutexTimeOut.selectPoll_timer pick timer _ now _ h hf),
        MutexTimeOut.selectPost_false m0 _ start env timer now hbefore hd⟩
  induction fuel with
  | zero =>
    intro now hfuel hbefore
    exact ready 0 now hbefore (Or.inr (by omega))
  | succ fuel ih =>
    intro now hfuel hbefore
    by_cases hready : 0 < (m0.atTick env now).ch.len ∨ (After lag1 d late).fireAt ≤ now
    · exact ready (fuel + 1) now hbefore hready
    · have h : ¬ 0 < (m0.atTick env now).ch.len := fun hc => hready (Or.inl hc)
      have hd : ¬ (After lag1 d late).fireAt ≤ now := fun hc => hready (Or.inr hc)
      have hf : (After lag1 d late).fired now = false := by
        rw [MutexTimeOut.after_fired]
        exact decide_eq_false hd
      have hstep : ∀ k, start ≤ k → k < now + 1 → (m0.atTick env k).locked := by
        intro k hs hk
        by_cases hk2 : k < now
        · exact hbefore k hs hk2
        · have hkn : k = now := by omega
          subst hkn
          show (m0.atTick env k).ch.len = 0
          omega
      obtain ⟨r, hr, hge, hle, hrest⟩ := ih (now + 1) (by omega) hstep
      rw [MutexTimeOut.selectWait_wait env pick timer _ fuel now _ h hf]
      refine ⟨r, hr, by omega, ?_, hrest⟩
      have h1 : max (now + 1) (After lag1 d late).fireAt = (After lag1 d late).fireAt :=
        max_eq_right (by omega)
      have h2 : max now (After lag1 d late).fireAt = (After lag1 d late).fireAt :=
        max_eq_right (by omega)
      omega

/-- C6, as the claim states it, fails: on a freshly built, unlocked lock the token is
there from the start, before the timeout of five ticks has elapsed; when the `select`
polls for the first time seven ticks after the timers were made, both of its channels are
ready, and when it picks the timer case `TryLock` returns `false`. -/
theorem tryLock_late_poll_times_out :
    ∃ t0 r, NewMutexTimeOut = some t0 ∧
      (∃ k : Nat, (k : Int) < 5 ∧ (t0.atTick (fun _ => []) k).unlocked) ∧
      t0.TryLock 5 0 7 0 (fun _ => []) false = some r ∧ r.ok = false ∧ r.m = t0 :=
  ⟨{ ch := { cap := 1, len := 1 } },
   { ok := false, m := { ch := { cap := 1, len := 1 } }, returnedAt := 7,
     timer := { createdAt := 0, d := 5, late := 0, stopped := false },
     afterTimer := { createdAt := 0, d := 5, late := 0, stopped := false } },
   by decide, ⟨0, by decide, by decide⟩, by decide, rfl, rfl⟩

/-- C6, amended: for every state of a `MutexTimeOut`, every timeout `d`, every delay before
`time.After` is evaluated (`lag1`), before the first poll of the `select` (`lag2`) and
before the runtime delivers the value of a timer whose duration has elapsed (`late`),
and every behaviour of the other goroutines, `TryLock(d)` returns, not before its first
poll.  It returns `true` when, at the first poll or at a later tick while it waits, the
token is in the channel before the timer of `time.After` has fired, and `false` when
that timer fires with no token in the channel at any tick from the first poll on.  A call
that returns `true` took the token, leaving the lock locked; a call that returns `false`
left the lock as the other goroutines made it, and returned when the timer had fired. -/
theorem tryLock_timeout_outcome (m : MutexTimeOut) (hwf : m.WF) (d : Int)
    (lag1 lag2 late : Nat) (env : Nat → List Other) (pick : Bool) :
    ∃ r, m.TryLock d lag1 lag2 late env pick = some r ∧ lag1 + lag2 ≤ r.returnedAt ∧
      r.afterTimer = After lag1 d late ∧
      ((∃ k : Nat, lag1 + lag2 ≤ k ∧ k < (After lag1 d late).fireAt ∧
          (m.atTick env k).unlocked) → r.ok = true) ∧
      ((∀ k : Nat, lag1 + lag2 ≤ k → k ≤ max (lag1 + lag2) (After lag1 d late).fireAt →
          (m.atTick env k).locked) → r.ok = false) ∧
      (r.ok = true → (m.atTick env r.returnedAt).unlocked ∧
        r.m.ch.len + 1 = (m.atTick env r.returnedAt).ch.len ∧ r.m.locked) ∧
      (r.ok = false → r.m = m.atTick env r.returnedAt ∧
        (After lag1 d late).fired r.returnedAt = true) := by
  obtain ⟨r, hr, hge, hle, hbefore, htrue, hfalse, hafter⟩ :=
    MutexTimeOut.selectWait_spec m d lag1 late (lag1 + lag2) env pick (NewTimer 0 d late)
      (d.toNat + late) (lag1 + lag2)
      (by rw [MutexTimeOut.after_fireAt]; omega) (fun k h1 h2 => absurd h2 (by omega))
  refine ⟨r, hr, hge, hafter, ?_, ?_, ?_, ?_⟩
  · rintro ⟨k, hs, hk, hu⟩
    cases hok : r.ok with
    | true => rfl
    | false =>
      obtain ⟨_, hd, _⟩ := hfalse hok
      have hl : (m.atTick env k).ch.len = 0 := hbefore k hs (by omega)
      have hu2 : 0 < (m.atTick env k).ch.len := hu
      omega
  · intro hall
    cases hok : r.ok with
    | false => rfl
    | true =>
      obtain ⟨hpos, _, _⟩ := htrue hok
      have hl : (m.atTick env r.returnedAt).ch.len = 0 := hall _ hge hle
      omega
  · intro hok
    obtain ⟨hpos, hlen, _⟩ := htrue hok
    have hw := (MutexTimeOut.wf_atTick m hwf env r.returnedAt).2
    refine ⟨hpos, hlen, ?_⟩
    show r.m.ch.len = 0
    omega
  · intro hok
    obtain ⟨h1, h2, _⟩ := hfalse hok
    refine ⟨h1, ?_⟩
    rw [MutexTimeOut.after_fired]
    exact decide_eq_true h2

theorem tryLock_timeout_outcome_witness :
    ({ ch := { cap := 1, len := 0 } } : MutexTimeOut).WF ∧
    ∃ r, MutexTimeOut.TryLock { ch := { cap := 1, len := 0 } } 4 1 1 2
        (fun k => if k = 3 then [Other.release] else []) false = some r ∧
      r.ok = true ∧ r.returnedAt = 3 ∧ r.m.locked :=
  ⟨by decide,
   (tryLock_timeout_outcome { ch := { cap := 1, len := 0 } } (by decide) 4 1 1 2
      (fun k => if k = 3 then [Other.release] else []) false).elim
    (fun r hr => ⟨r, hr.1, hr.2.2.2.1 ⟨3, by decide, by decide, by decide⟩, by
      have h := hr.1
      have h2 : MutexTimeOut.TryLock { ch := { cap := 1, len := 0 } } 4 1 1 2
        (fun k => if k = 3 then [Other.release] else []) false
        = some { ok := true, m := { ch := { cap := 1, len := 0 } }, returnedAt := 3,
                 timer := { createdAt := 0, d := 4, late := 2, stopped := true },
                 afterTimer := { createdAt := 1, d := 4, late := 2, stopped := false } } := by
        decide
      rw [h2, Option.some.injEq] at h
      subst h
      exact ⟨rfl, rfl⟩⟩)⟩

/-- C10: on the lock built by `NewMutexTimeOut`, `TryLock` returns `true` at its first
poll, with a timeout of five ticks and no delay as with a timeout of one hour and a first
poll after 1100 ticks; the timer made by `NewTimer` is stopped, but the timer behind
`time.After`, the one the `select` waits on, is neither stopped nor fired: it is still
pending when the call returns. -/
theorem tryLock_leaves_after_timer :
    ∃ t0 r r1, NewMutexTimeOut = some t0 ∧
      t0.TryLock 5 0 0 0 (fun _ => []) true = some r ∧
      r.ok = true ∧ r.returnedAt = 0 ∧ r.timer.stopped = true ∧
      r.afterTimer.stopped = false ∧ r.afterTimer.pending r.returnedAt = true ∧
      t0.TryLock 3600000000000 100 1000 50 (fun _ => []) true = some r1 ∧
      r1.ok = true ∧ r1.returnedAt = 1100 ∧ r1.timer.stopped = true ∧
      r1.afterTimer.stopped = false ∧ r1.afterTimer.pending r1.returnedAt = true := by
  have hat : ∀ k, MutexTimeOut.atTick { ch := { cap := 1, len := 1 } } (fun _ => []) k =
      { ch := { cap := 1, len := 1 } } := by
    intro k
    induction k with
    | zero => rfl
    | succ k ih => simp only [MutexTimeOut.atTick, ih, MutexTimeOut.others]
  refine ⟨{ ch := { cap := 1, len := 1 } },
    { ok := true, m := { ch := { cap := 1, len := 0 } }, returnedAt := 0,
      timer := { createdAt := 0, d := 5, late := 0, stopped := true },
      afterTimer := { createdAt := 0, d := 5, late := 0, stopped := false } },
    { ok := true, m := { ch := { cap := 1, len := 0 } }, returnedAt := 1100,
      timer := { createdAt := 0, d := 3600000000000, late := 50, stopped := true },
      afterTimer := { createdAt := 100, d := 3600000000000, late := 50, stopped := false } },
    by decide, by decide, rfl, rfl, rfl, rfl, by decide, ?_, rfl, rfl, rfl, rfl, by decide⟩
  have hf : (After 100 3600000000000 50).fired (100 + 1000) = false := by
    rw [MutexTimeOut.after_fired]
    decide
  simp only [MutexTimeOut.TryLock, hat]
  rw [MutexTimeOut.selectWait_of_poll _ _ _ _ _ _ _ _
    (MutexTimeOut.selectPoll_token true (NewTimer 0 3600000000000 50) _ (100 + 1000)
      { ch := { cap := 1, len := 1 } } (by decide) hf)]
  rfl

/-! # Properties of the aggregators -/

theorem Src.fired_of_ready (s : Src) (h : s.ready = true) : s.hasFired = true := by
  simp only [Src.ready, Src.hasFired, Bool.or_eq_true, decide_eq_true_eq] at *
  cases h with
  | inl h => exact Or.inl (by omega)
  | inr h => exact Or.inr h

theorem Src.ready_of_recv (s s1 : Src) (h : s.recv = some s1) :
    s.ready = true ∧ s1.hasFired = true := by
  unfold Src.recv at h
  by_cases h1 : s.taken < s.sent
  · simp only [h1, if_true, Option.some.injEq] at h
    subst h
    simp only [Src.ready, Src.hasFired, Bool.or_eq_true, decide_eq_true_eq]
    exact ⟨Or.inl h1, Or.inl (by show 0 < s.sent; omega)⟩
  · by_cases h2 : s.closed = true
    · simp only [h1, if_false, h2, if_true, Option.some.injEq] at h
      subst h
      simp [Src.ready, Src.hasFired, h2]
    · simp [h1, h2] at h

theorem Src.fired_of_recv (s s1 : Src) (h : s.recv = some s1) (_hf : s.hasFired = true) :
    s1.hasFired = true := (Src.ready_of_recv s s1 h).2

theorem srcFired_of_ready (srcs : Srcs) (c : ChanRef) (h : srcReady srcs c = true) :
    srcFired srcs c = true := by
  cases c with
  | none => simp [srcReady] at h
  | some i => exact Src.fired_of_ready _ h

theorem srcFired_update (srcs : Srcs) (i : Nat) (s1 : Src)
    (hkeep : (srcs i).hasFired = true → s1.hasFired = true) (x : ChanRef)
    (hx : srcFired srcs x = true) : srcFired (Function.update srcs i s1) x = true := by
  cases x with
  | none => simp [srcFired] at hx
  | some j =>
    by_cases hji : j = i
    · subst hji
      simp only [srcFired, Function.update_same]
      exact hkeep hx
    · simp only [srcFired, Function.update_noteq hji]
      exact hx

theorem srcRecv_mono (srcs srcs1 : Srcs) (c : ChanRef) (h : srcRecv srcs c = some srcs1)
    (x : ChanRef) (hx : srcFired srcs x = true) : srcFired srcs1 x = true := by
  cases c with
  | none => simp [srcRecv] at h
  | some i =>
    simp only [srcRecv] at h
    cases hr : (srcs i).recv with
    | none => simp [hr] at h
    | some s1 =>
      simp only [hr, Option.some.injEq] at h
      subst h
      exact srcFired_update srcs i s1 (Src.fired_of_recv _ _ hr) x hx

theorem srcRecv_fired (srcs srcs1 : Srcs) (c : ChanRef) (h : srcRecv srcs c = some srcs1) :
    srcFired srcs1 c = true := by
  cases c with
  | none => simp [srcRecv] at h
  | some i =>
    simp only [srcRecv] at h
    cases hr : (srcs i).recv with
    | none => simp [hr] at h
    | some s1 =>
      simp only [hr, Option.some.injEq] at h
      subst h
      simp only [srcFired, Function.update_same]
      exact (Src.ready_of_recv _ _ hr).2

theorem envStep_mono (srcs srcs1 : Srcs) (e : EnvAct) (h : envStep srcs e = some srcs1)
    (x : ChanRef) (hx : srcFired srcs x = true) : srcFired srcs1 x = true := by
  cases e with
  | send i =>
    simp only [envStep] at h
    by_cases hc : (srcs i).closed = true
    · simp [hc] at h
    · simp only [hc, Bool.false_eq_true, if_false, Option.some.injEq] at h
      subst h
      refine srcFired_update srcs i _ ?_ x hx
      intro _
      simp [Src.hasFired]
  | close i =>
    simp only [envStep] at h
    by_cases hc : (srcs i).closed = true
    · simp [hc] at h
    · simp only [hc, Bool.false_eq_true, if_false, Option.some.injEq] at h
      subst h
      refine srcFired_update srcs i _ ?_ x hx
      intro _
      simp [Src.hasFired]
  | take i => exact srcRecv_mono srcs srcs1 (some i) h x hx

/-! ## `or1` -/

theorem or1_inv_init (chans : List ChanRef) (srcs : Srcs) : Or1.Inv chans (srcs, or1 chans) := by
  refine ⟨rfl, rfl, rfl, rfl, ?_, ?_⟩
  · intro w hw
    simp [or1] at hw
  · intro h
    simp [or1] at h

theorem or1_inv_step (chans : List ChanRef) (st st1 : Srcs × Or1) (a : Act1)
    (hinv : Or1.Inv chans st) (hstep : st.2.step st.1 a = some st1) : Or1.Inv chans st1 := by
  obtain ⟨srcs, s⟩ := st
  obtain ⟨hch, hout, hcl, hp, hrecv, honce⟩ := hinv
  simp only at hch hout hcl hp hrecv honce hstep
  cases a with
  | env e =>
    simp only [Or1.step] at hstep
    cases he : envStep srcs e with
    | none => simp [he] at hstep
    | some srcs1 =>
      simp only [he, Option.some.injEq] at hstep
      subst hstep
      refine ⟨hch, hout, hcl, hp, ?_, ?_⟩
      · intro w hw
        obtain ⟨c, hc, hf⟩ := hrecv w hw
        exact ⟨c, hc, envStep_mono srcs srcs1 e he c hf⟩
      · intro h
        obtain ⟨c, hc, hf⟩ := honce h
        exact ⟨c, hc, envStep_mono srcs srcs1 e he c hf⟩
  | spawn =>
    simp only [Or1.step] at hstep
    by_cases hlt : s.spawned < s.chans.length
    · simp only [hlt, if_true, Option.some.injEq] at hstep
      subst hstep
      refine ⟨hch, hout, hcl, hp, ?_, honce⟩
      intro w hw
      simp only at hw
      by_cases hws : w = s.spawned
      · subst hws
        simp at hw
      · rw [Function.update_noteq hws] at hw
        exact hrecv w hw
    · simp [hlt] at hstep
  | recvSrc w =>
    simp only [Or1.step] at hstep
    cases hw : s.ws w with
    | idle => simp [hw] at hstep
    | received => simp [hw] at hstep
    | exited => simp [hw] at hstep
    | selecting =>
      cases hg : s.chans[w]? with
      | none => simp [hw, hg] at hstep
      | some c =>
        cases hr : srcRecv srcs c with
        | none => simp [hw, hg, hr] at hstep
        | some srcs1 =>
          simp only [hw, hg, hr, Option.some.injEq] at hstep
          subst hstep
          have hmem : c ∈ chans := by
            rw [← hch]
            exact List.getElem?_mem hg
          refine ⟨hch, hout, hcl, hp, ?_, ?_⟩
          · intro v hv
            simp only at hv
            by_cases hvw : v = w
            · exact ⟨c, hmem, srcRecv_fired srcs srcs1 c hr⟩
            · rw [Function.update_noteq hvw] at hv
              obtain ⟨c2, hc2, hf⟩ := hrecv v hv
              exact ⟨c2, hc2, srcRecv_mono srcs srcs1 c hr c2 hf⟩
          · intro h
            obtain ⟨c2, hc2, hf⟩ := honce h
            exact ⟨c2, hc2, srcRecv_mono srcs srcs1 c hr c2 hf⟩
  | recvOut w =>
    simp only [Or1.step] at hstep
    cases hw : s.ws w with
    | idle => simp [hw] at hstep
    | received => simp [hw] at hstep
    | exited => simp [hw] at hstep
    | selecting =>
      by_cases hc : s.out.closed = true
      · simp only [hw, hc, if_true, Option.some.injEq] at hstep
        subst hstep
        refine ⟨hch, hout, hcl, hp, ?_, honce⟩
        intro v hv
        simp only at hv
        by_cases hvw : v = w
        · subst hvw
          simp at hv
        · rw [Function.update_noteq hvw] at hv
          exact hrecv v hv
      · simp [hw, hc] at hstep
  | onceDo w =>
    simp only [Or1.step] at hstep
    cases hw : s.ws w with
    | idle => simp [hw] at hstep
    | selecting => simp [hw] at hstep
    | exited => simp [hw] at hstep
    | received =>
      simp only [hw, Option.some.injEq] at hstep
      subst hstep
      obtain ⟨c, hc, hf⟩ := hrecv w hw
      have hrest : ∀ v, Function.update s.ws w Watcher.exited v = Watcher.received →
          ∃ c, c ∈ chans ∧ srcFired srcs c = true := by
        intro v hv
        by_cases hvw : v = w
        · subst hvw
          simp at hv
        · rw [Function.update_noteq hvw] at hv
          exact hrecv v hv
      by_cases ho : s.once = true
      · have hdo : s.onceDo = s := by simp [Or1.onceDo, ho]
        rw [hdo]
        exact ⟨hch, hout, hcl, hp, hrest, honce⟩
      · have hoc : s.out.closed = false := by
          rw [hout]
          simpa using ho
        simp only [Or1.onceDo, ho, Out.close, hoc, hp]
        refine ⟨hch, ?_, ?_, ?_, hrest, fun _ => ⟨c, hc, hf⟩⟩
        · simp
        · simp only [ho, if_false] at hcl
          simp [hcl]
        · simp

theorem or1_inv_run (chans : List ChanRef) (acts : List Act1) (st st1 : Srcs × Or1)
    (hinv : Or1.Inv chans st) (hrun : Or1.run acts st = some st1) : Or1.Inv chans st1 := by
  induction acts generalizing st with
  | nil =>
    simp only [Or1.run, runSteps, Option.some.injEq] at hrun
    subst hrun
    exact hinv
  | cons a rest ih =>
    simp only [Or1.run, runSteps] at hrun
    cases hs : st.2.step st.1 a with
    | none => simp [hs] at hrun
    | some st2 =>
      simp only [hs] at hrun
      exact ih st2 (or1_inv_step chans st st2 a hinv hs) hrun

/-! ## `or2` -/

theorem or2_inv_init (chans : List ChanRef) (srcs : Srcs) : Or2.Inv chans srcs (or2 chans) := by
  cases chans with
  | nil => simp [or2, Or2.Inv]
  | cons a rest =>
    cases rest with
    | nil => simp [or2, Or2.Inv]
    | cons b rest => simp [or2, Or2.Inv]

theorem or2_inv_step (chans : List ChanRef) (st st1 : Srcs × Or2) (a : Act2)
    (hinv : Or2.Inv chans st.1 st.2) (hstep : st.2.step st.1 a = some st1) :
    Or2.Inv chans st1.1 st1.2 := by
  obtain ⟨srcs, s⟩ := st
  simp only at hinv hstep
  cases a with
  | env e =>
    simp only [Or2.step] at hstep
    cases he : envStep srcs e with
    | none => simp [he] at hstep
    | some srcs1 =>
      simp only [he, Option.some.injEq] at hstep
      subst hstep
      cases s with
      | given c => exact hinv
      | running channels pc orDone closes panicked =>
        obtain ⟨h1, h2, h3, h4⟩ := hinv
        refine ⟨h1, h2, h3, ?_⟩
        intro hpc
        cases h4 hpc with
        | inl h5 =>
          obtain ⟨hp, c, hc, hf⟩ := h5
          exact Or.inl ⟨hp, c, hc, envStep_mono srcs srcs1 e he c hf⟩
        | inr h5 => exact Or.inr h5
  | select i =>
    cases s with
    | given c => simp [Or2.step] at hstep
    | running channels pc orDone closes panicked =>
      obtain ⟨h1, h2, h3, h4⟩ := hinv
      cases pc with
      | returning => simp [Or2.step] at hstep
      | exited => simp [Or2.step] at hstep
      | selecting =>
        simp only [Or2.step] at hstep
        by_cases hmax : maxSelectCases < channels.length
        · simp [hmax] at hstep
        · simp only [hmax, if_false] at hstep
          cases hg : channels[i]? with
          | none => simp [hg] at hstep
          | some c =>
            cases hr : srcRecv srcs c with
            | none => simp [hg, hr] at hstep
            | some srcs1 =>
              simp only [hg, hr, Option.some.injEq] at hstep
              subst hstep
              have hmem : c ∈ chans := by
                rw [← h1]
                exact List.getElem?_mem hg
              refine ⟨h1, ?_, ?_, ?_⟩
              · simpa using h2
              · intro hc
                exact absurd hc (by decide)
              · intro _
                exact Or.inl ⟨h3 rfl, c, hmem, srcRecv_fired srcs srcs1 c hr⟩
  | selectPanic =>
    cases s with
    | given c => simp [Or2.step] at hstep
    | running channels pc orDone closes panicked =>
      obtain ⟨h1, h2, h3, h4⟩ := hinv
      cases pc with
      | returning => simp [Or2.step] at hstep
      | exited => simp [Or2.step] at hstep
      | selecting =>
        simp only [Or2.step] at hstep
        by_cases hmax : maxSelectCases < channels.length
        · simp only [hmax, if_true, Option.some.injEq] at hstep
          subst hstep
          have hp : panicked = none := h3 rfl
          refine ⟨h1, ?_, ?_, ?_⟩
          · simpa using h2
          · intro hc
            exact absurd hc (by decide)
          · intro _
            refine Or.inr ⟨?_, by rw [← h1]; exact hmax⟩
            simp [hp]
        · simp [hmax] at hstep
  | deferClose =>
    cases s with
    | given c => simp [Or2.step] at hstep
    | running channels pc orDone closes panicked =>
      obtain ⟨h1, h2, h3, h4⟩ := hinv
      cases pc with
      | selecting => simp [Or2.step] at hstep
      | exited => simp [Or2.step] at hstep
      | returning =>
        simp only [Or2.step, Option.some.injEq] at hstep
        subst hstep
        have h5 : orDone.closed = false ∧ closes = 0 := by simpa using h2
        have hkeep : (if panicked.isSome = true then panicked else orDone.close.1) = panicked := by
          cases panicked with
          | none => simp [Out.close, h5.1]
          | some f => simp
        refine ⟨h1, ?_, ?_, ?_⟩
        · simp [Out.close, h5.1, h5.2]
        · intro hc
          exact absurd hc (by decide)
        · intro _
          rw [hkeep]
          exact h4 (by decide)

theorem or2_inv_run (chans : List ChanRef) (acts : List Act2) (st st1 : Srcs × Or2)
    (hinv : Or2.Inv chans st.1 st.2) (hrun : Or2.run acts st = some st1) :
    Or2.Inv chans st1.1 st1.2 := by
  induction acts generalizing st with
  | nil =>
    simp only [Or2.run, runSteps, Option.some.injEq] at hrun
    subst hrun
    exact hinv
  | cons a rest ih =>
    simp only [Or2.run, runSteps] at hrun
    cases hs : st.2.step st.1 a with
    | none => simp [hs] at hrun
    | some st2 =>
      simp only [hs] at hrun
      exact ih st2 (or2_inv_step chans st st2 a hinv hs) hrun

theorem or2_fired_of_inv (chans : List ChanRef) (hmax : chans.length ≤ maxSelectCases)
    (srcs : Srcs) (s : Or2)
    (hinv : Or2.Inv chans srcs s) (hf : s.fired srcs = true) :
    ∃ c, c ∈ chans ∧ srcFired srcs c = true := by
  cases s with
  | given c =>
    have hc : srcFired srcs c = true := srcFired_of_ready srcs c hf
    refine ⟨c, ?_, hc⟩
    cases chans with
    | nil =>
      simp only [Or2.Inv, or2, Or2.given.injEq] at hinv
      subst hinv
      simp [srcFired] at hc
    | cons a rest =>
      cases rest with
      | nil =>
        simp only [Or2.Inv, or2, Or2.given.injEq] at hinv
        subst hinv
        exact List.mem_singleton.mpr rfl
      | cons b rest => simp [Or2.Inv, or2] at hinv
  | running channels pc orDone closes panicked =>
    obtain ⟨h1, h2, h3, h4⟩ := hinv
    simp only [Or2.fired] at hf
    cases pc with
    | selecting => simp [hf] at h2
    | returning => simp [hf] at h2
    | exited =>
      cases h4 (by decide) with
      | inl h5 => exact h5.2
      | inr h5 => exact absurd h5.2 (by omega)

theorem or2_fault_of_inv (chans : List ChanRef) (srcs : Srcs) (s : Or2)
    (hinv : Or2.Inv chans srcs s) :
    s.fault ≠ some closeFault ∧ (chans.length ≤ maxSelectCases → s.fault = none) := by
  cases s with
  | given c => exact ⟨by simp [Or2.fault], fun _ => rfl⟩
  | running channels pc orDone closes panicked =>
    obtain ⟨h1, h2, h3, h4⟩ := hinv
    simp only [Or2.fault]
    by_cases hpc : pc = Pc.selecting
    · rw [h3 hpc]
      exact ⟨by simp, fun _ => rfl⟩
    · cases h4 hpc with
      | inl h5 =>
        rw [h5.1]
        exact ⟨by simp, fun _ => rfl⟩
      | inr h5 =>
        rw [h5.1]
        refine ⟨?_, fun hle => absurd h5.2 (by omega)⟩
        simp only [ne_eq, Option.some.injEq]
        decide


/-! ## `or3` -/

theorem or3_sources (x : List ChanRef) (hx : x ≠ []) : (or3 x).sources = x := by
  cases x with
  | nil => exact absurd rfl hx
  | cons a rest =>
    cases rest with
    | nil => rfl
    | cons b rest => rfl

theorem or3_inv (x : List ChanRef) : (or3 x).Inv := by
  cases x with
  | nil => trivial
  | cons a rest =>
    cases rest with
    | nil => trivial
    | cons b rest =>
      refine ⟨⟨rfl, rfl, rfl⟩, ?_⟩
      simp

theorem or3_just (srcs : Srcs) (x : List ChanRef) : (or3 x).Just srcs := by
  cases x with
  | nil => trivial
  | cons a rest =>
    cases rest with
    | nil => trivial
    | cons b rest => trivial

theorem or3Operands_spec (srcs : Srcs) (ch : List ChanRef) (h : 2 ≤ ch.length) :
    (or3Operands ch).1.Inv ∧ (or3Operands ch).2.Inv ∧
    (or3Operands ch).1.Just srcs ∧ (or3Operands ch).2.Just srcs ∧
    (or3Operands ch).1.sources ++ (or3Operands ch).2.sources = ch := by
  cases ch with
  | nil => simp at h
  | cons a rest =>
    cases rest with
    | nil => simp at h
    | cons b rest =>
      cases rest with
      | nil =>
        simp only [or3Operands]
        exact ⟨trivial, trivial, trivial, trivial, rfl⟩
      | cons c rest =>
        have hm1 : 1 ≤ (a :: b :: c :: rest).length / 2 := by
          simp only [List.length_cons]
          omega
        have hm2 : (a :: b :: c :: rest).length / 2 < (a :: b :: c :: rest).length := by
          simp only [List.length_cons]
          omega
        have ht : List.take ((a :: b :: c :: rest).length / 2) (a :: b :: c :: rest) ≠ [] := by
          intro hnil
          have hl := congrArg List.length hnil
          rw [List.length_take] at hl
          simp only [List.length_nil] at hl
          omega
        have hd : List.drop ((a :: b :: c :: rest).length / 2) (a :: b :: c :: rest) ≠ [] := by
          intro hnil
          have hl := congrArg List.length hnil
          rw [List.length_drop] at hl
          simp only [List.length_nil] at hl
          omega
        simp only [or3Operands]
        refine ⟨or3_inv _, or3_inv _, or3_just srcs _, or3_just srcs _, ?_⟩
        rw [or3_sources _ ht, or3_sources _ hd]
        exact List.take_append_drop _ _

theorem Or3.just_mono (srcs srcs1 : Srcs)
    (hmono : ∀ x, srcFired srcs x = true → srcFired srcs1 x = true) (t : Or3)
    (h : t.Just srcs) : t.Just srcs1 := by
  induction t with
  | given c => trivial
  | made d ch => trivial
  | node pc d l r ihl ihr =>
    obtain ⟨h1, h2, h3⟩ := h
    refine ⟨?_, ihl h2, ihr h3⟩
    intro hpc
    obtain ⟨c, hc, hf⟩ := h1 hpc
    exact ⟨c, hc, hmono c hf⟩

theorem Or3.recvFrom_spec (srcs srcs1 : Srcs) (t : Or3) (hinv : t.Inv) (hjust : t.Just srcs)
    (h : t.recvFrom srcs = some srcs1) :
    (∀ x, srcFired srcs x = true → srcFired srcs1 x = true) ∧
    ∃ c, c ∈ t.sources ∧ srcFired srcs1 c = true := by
  cases t with
  | given c =>
    simp only [Or3.recvFrom] at h
    exact ⟨srcRecv_mono srcs srcs1 c h, c, List.mem_singleton.mpr rfl, srcRecv_fired srcs srcs1 c h⟩
  | made d ch =>
    simp only [Or3.recvFrom] at h
    have := hinv.1.1
    simp [this] at h
  | node pc d l r =>
    simp only [Or3.recvFrom] at h
    by_cases hc : d.orDone.closed = true
    · simp only [hc, if_true, Option.some.injEq] at h
      subst h
      refine ⟨fun _ hx => hx, ?_⟩
      have hpc : pc = Pc.exited := by
        by_contra hne
        have h1 := hinv.1
        simp only [hne, if_false] at h1
        have := h1.1
        simp [hc] at this
      exact hjust.1 (by rw [hpc]; decide)
    · simp [hc] at h

theorem Or3.stepHere_spec (srcs srcs1 : Srcs) (t t1 : Or3) (a : NodeAct) (hinv : t.Inv)
    (hjust : t.Just srcs) (h : t.stepHere srcs a = some (srcs1, t1)) :
    t1.Inv ∧ t1.Just srcs1 ∧ t1.sources = t.sources ∧
    (∀ x, srcFired srcs x = true → srcFired srcs1 x = true) := by
  cases t with
  | given c => cases a <;> simp [Or3.stepHere] at h
  | made d ch =>
    cases a with
    | start =>
      simp only [Or3.stepHere, Option.some.injEq, Prod.mk.injEq] at h
      obtain ⟨h1, h2⟩ := h
      subst h1
      subst h2
      obtain ⟨i1, i2, j1, j2, hs⟩ := or3Operands_spec srcs ch hinv.2
      refine ⟨⟨?_, i1, i2⟩, ⟨?_, j1, j2⟩, hs, fun _ hx => hx⟩
      · simpa using hinv.1
      · intro hc
        exact absurd rfl hc
    | recvLeft => simp [Or3.stepHere] at h
    | recvRight => simp [Or3.stepHere] at h
    | deferClose => simp [Or3.stepHere] at h
  | node pc d l r =>
    obtain ⟨hcell, hl, hr⟩ := hinv
    obtain ⟨hj, hjl, hjr⟩ := hjust
    cases pc with
    | selecting =>
      have hopen : d.Open := by simpa using hcell
      cases a with
      | start => simp [Or3.stepHere] at h
      | deferClose => simp [Or3.stepHere] at h
      | recvLeft =>
        simp only [Or3.stepHere] at h
        cases hrv : l.recvFrom srcs with
        | none => simp [hrv] at h
        | some srcs2 =>
          simp only [hrv, Option.some.injEq, Prod.mk.injEq] at h
          obtain ⟨h1, h2⟩ := h
          subst h1
          subst h2
          obtain ⟨hmono, c, hc, hf⟩ := Or3.recvFrom_spec srcs srcs2 l hl hjl hrv
          refine ⟨⟨by simpa using hopen, hl, hr⟩, ⟨?_, ?_, ?_⟩, rfl, hmono⟩
          · intro _
            exact ⟨c, List.mem_append_left _ hc, hf⟩
          · exact Or3.just_mono srcs srcs2 hmono l hjl
          · exact Or3.just_mono srcs srcs2 hmono r hjr
      | recvRight =>
        simp only [Or3.stepHere] at h
        cases hrv : r.recvFrom srcs with
        | none => simp [hrv] at h
        | some srcs2 =>
          simp only [hrv, Option.some.injEq, Prod.mk.injEq] at h
          obtain ⟨h1, h2⟩ := h
          subst h1
          subst h2
          obtain ⟨hmono, c, hc, hf⟩ := Or3.recvFrom_spec srcs srcs2 r hr hjr hrv
          refine ⟨⟨by simpa using hopen, hl, hr⟩, ⟨?_, ?_, ?_⟩, rfl, hmono⟩
          · intro _
            exact ⟨c, List.mem_append_right _ hc, hf⟩
          · exact Or3.just_mono srcs srcs2 hmono l hjl
          · exact Or3.just_mono srcs srcs2 hmono r hjr
    | returning =>
      have hopen : d.Open := by simpa using hcell
      cases a with
      | start => simp [Or3.stepHere] at h
      | recvLeft => simp [Or3.stepHere] at h
      | recvRight => simp [Or3.stepHere] at h
      | deferClose =>
        simp only [Or3.stepHere, Option.some.injEq, Prod.mk.injEq] at h
        obtain ⟨h1, h2⟩ := h
        subst h1
        subst h2
        obtain ⟨o1, o2, o3⟩ := hopen
        refine ⟨⟨?_, hl, hr⟩, ⟨fun _ => hj (by decide), hjl, hjr⟩, rfl, fun _ hx => hx⟩
        simp [Cell.Done, Cell.close, Out.close, o1, o2, o3]
    | exited => cases a <;> simp [Or3.stepHere] at h

theorem Or3.stepAt_spec (path : List Bool) (a : NodeAct) (srcs srcs1 : Srcs) (t t1 : Or3)
    (hinv : t.Inv) (hjust : t.Just srcs) (h : t.stepAt srcs path a = some (srcs1, t1)) :
    t1.Inv ∧ t1.Just srcs1 ∧ t1.sources = t.sources ∧
    (∀ x, srcFired srcs x = true → srcFired srcs1 x = true) := by
  induction path generalizing t t1 with
  | nil =>
    have h2 : t.stepHere srcs a = some (srcs1, t1) := by
      cases t <;> simpa [Or3.stepAt] using h
    exact Or3.stepHere_spec srcs srcs1 t t1 a hinv hjust h2
  | cons b rest ih =>
    cases t with
    | given c => simp [Or3.stepAt] at h
    | made d ch => simp [Or3.stepAt] at h
    | node pc d l r =>
      obtain ⟨hcell, hl, hr⟩ := hinv
      obtain ⟨hj, hjl, hjr⟩ := hjust
      cases b with
      | false =>
        simp only [Or3.stepAt] at h
        cases hs : l.stepAt srcs rest a with
        | none => simp [hs] at h
        | some p =>
          obtain ⟨srcs2, l1⟩ := p
          simp only [hs, Option.some.injEq, Prod.mk.injEq] at h
          obtain ⟨h1, h2⟩ := h
          subst h1
          subst h2
          obtain ⟨i1, i2, i3, i4⟩ := ih l l1 hl hjl hs
          refine ⟨⟨hcell, i1, hr⟩, ⟨?_, i2, Or3.just_mono srcs srcs2 i4 r hjr⟩, ?_, i4⟩
          · intro hpc
            obtain ⟨c, hc, hf⟩ := hj hpc
            exact ⟨c, by simpa only [Or3.sources, i3] using hc, i4 c hf⟩
          · simp only [Or3.sources, i3]
      | true =>
        simp only [Or3.stepAt] at h
        cases hs : r.stepAt srcs rest a with
        | none => simp [hs] at h
        | some p =>
          obtain ⟨srcs2, r1⟩ := p
          simp only [hs, Option.some.injEq, Prod.mk.injEq] at h
          obtain ⟨h1, h2⟩ := h
          subst h1
          subst h2
          obtain ⟨i1, i2, i3, i4⟩ := ih r r1 hr hjr hs
          refine ⟨⟨hcell, hl, i1⟩, ⟨?_, Or3.just_mono srcs srcs2 i4 l hjl, i2⟩, ?_, i4⟩
          · intro hpc
            obtain ⟨c, hc, hf⟩ := hj hpc
            exact ⟨c, by simpa only [Or3.sources, i3] using hc, i4 c hf⟩
          · simp only [Or3.sources, i3]

theorem or3_inv_step (st st1 : Srcs × Or3) (a : Act3) (hinv : st.2.Inv)
    (hjust : st.2.Just st.1) (hstep : st.2.step st.1 a = some st1) :
    st1.2.Inv ∧ st1.2.Just st1.1 ∧ st1.2.sources = st.2.sources := by
  obtain ⟨srcs, t⟩ := st
  obtain ⟨srcs1, t1⟩ := st1
  simp only at hinv hjust hstep
  cases a with
  | env e =>
    simp only [Or3.step] at hstep
    cases he : envStep srcs e with
    | none => simp [he] at hstep
    | some srcs2 =>
      simp only [he, Option.some.injEq, Prod.mk.injEq] at hstep
      obtain ⟨h1, h2⟩ := hstep
      subst h1
      subst h2
      exact ⟨hinv, Or3.just_mono srcs srcs2 (envStep_mono srcs srcs2 e he) t hjust, rfl⟩
  | node path b =>
    simp only [Or3.step] at hstep
    obtain ⟨i1, i2, i3, _⟩ := Or3.stepAt_spec path b srcs srcs1 t t1 hinv hjust hstep
    exact ⟨i1, i2, i3⟩

theorem or3_inv_run (acts : List Act3) (st st1 : Srcs × Or3) (hinv : st.2.Inv)
    (hjust : st.2.Just st.1) (hrun : Or3.run acts st = some st1) :
    st1.2.Inv ∧ st1.2.Just st1.1 ∧ st1.2.sources = st.2.sources := by
  induction acts generalizing st with
  | nil =>
    simp only [Or3.run, runSteps, Option.some.injEq] at hrun
    subst hrun
    exact ⟨hinv, hjust, rfl⟩
  | cons a rest ih =>
    simp only [Or3.run, runSteps] at hrun
    cases hs : st.2.step st.1 a with
    | none => simp [hs] at hrun
    | some st2 =>
      simp only [hs] at hrun
      obtain ⟨i1, i2, i3⟩ := or3_inv_step st st2 a hinv hjust hs
      obtain ⟨j1, j2, j3⟩ := ih st2 i1 i2 hrun
      exact ⟨j1, j2, j3.trans i3⟩

theorem or3_fired_of_inv (srcs : Srcs) (t : Or3) (hinv : t.Inv) (hjust : t.Just srcs)
    (hf : t.fired srcs = true) : ∃ c, c ∈ t.sources ∧ srcFired srcs c = true := by
  cases t with
  | given c => exact ⟨c, List.mem_singleton.mpr rfl, srcFired_of_ready srcs c hf⟩
  | made d ch =>
    simp only [Or3.fired] at hf
    have := hinv.1.1
    simp [hf] at this
  | node pc d l r =>
    simp only [Or3.fired] at hf
    have hpc : pc = Pc.exited := by
      by_contra hne
      have h1 := hinv.1
      simp only [hne, if_false] at h1
      have := h1.1
      simp [hf] at this
    exact hjust.1 (by rw [hpc]; decide)

theorem or3_sources_sub (chans : List ChanRef) (c : ChanRef) (hc : c ∈ (or3 chans).sources)
    (hf : c ≠ none) : c ∈ chans := by
  cases chans with
  | nil =>
    simp only [or3, Or3.sources, List.mem_singleton] at hc
    exact absurd hc hf
  | cons a rest =>
    rw [or3_sources _ (List.cons_ne_nil a rest)] at hc
    exact hc

/-! ## Sources along a run -/

theorem srcRecv_srcsStep (srcs srcs1 : Srcs) (c : ChanRef) (h : srcRecv srcs c = some srcs1) :
    SrcsStep srcs srcs1 := by
  cases c with
  | none => simp [srcRecv] at h
  | some i => exact Or.inr ⟨EnvAct.take i, h⟩

theorem or1_step_srcs (srcs : Srcs) (s : Or1) (a : Act1) (st1 : Srcs × Or1)
    (h : s.step srcs a = some st1) : SrcsStep srcs st1.1 := by
  cases a with
  | env e =>
    simp only [Or1.step] at h
    cases he : envStep srcs e with
    | none => simp [he] at h
    | some srcs1 =>
      simp only [he, Option.some.injEq] at h
      subst h
      exact Or.inr ⟨e, he⟩
  | spawn =>
    simp only [Or1.step] at h
    by_cases hlt : s.spawned < s.chans.length
    · simp only [hlt, if_true, Option.some.injEq] at h
      subst h
      exact Or.inl rfl
    · simp [hlt] at h
  | recvSrc w =>
    simp only [Or1.step] at h
    cases hw : s.ws w with
    | idle => simp [hw] at h
    | received => simp [hw] at h
    | exited => simp [hw] at h
    | selecting =>
      cases hg : s.chans[w]? with
      | none => simp [hw, hg] at h
      | some c =>
        cases hr : srcRecv srcs c with
        | none => simp [hw, hg, hr] at h
        | some srcs1 =>
          simp only [hw, hg, hr, Option.some.injEq] at h
          subst h
          exact srcRecv_srcsStep srcs srcs1 c hr
  | recvOut w =>
    simp only [Or1.step] at h
    cases hw : s.ws w with
    | idle => simp [hw] at h
    | received => simp [hw] at h
    | exited => simp [hw] at h
    | selecting =>
      by_cases hc : s.out.closed = true
      · simp only [hw, hc, if_true, Option.some.injEq] at h
        subst h
        exact Or.inl rfl
      · simp [hw, hc] at h
  | onceDo w =>
    simp only [Or1.step] at h
    cases hw : s.ws w with
    | idle => simp [hw] at h
    | selecting => simp [hw] at h
    | exited => simp [hw] at h
    | received =>
      simp only [hw, Option.some.injEq] at h
      subst h
      exact Or.inl rfl

theorem or2_step_srcs (srcs : Srcs) (s : Or2) (a : Act2) (st1 : Srcs × Or2)
    (h : s.step srcs a = some st1) : SrcsStep srcs st1.1 := by
  cases a with
  | env e =>
    simp only [Or2.step] at h
    cases he : envStep srcs e with
    | none => simp [he] at h
    | some srcs1 =>
      simp only [he, Option.some.injEq] at h
      subst h
      exact Or.inr ⟨e, he⟩
  | select i =>
    cases s with
    | given c => simp [Or2.step] at h
    | running channels pc orDone closes panicked =>
      cases pc with
      | returning => simp [Or2.step] at h
      | exited => simp [Or2.step] at h
      | selecting =>
        simp only [Or2.step] at h
        by_cases hmax : maxSelectCases < channels.length
        · simp [hmax] at h
        · simp only [hmax, if_false] at h
          cases hg : channels[i]? with
          | none => simp [hg] at h
          | some c =>
            cases hr : srcRecv srcs c with
            | none => simp [hg, hr] at h
            | some srcs1 =>
              simp only [hg, hr, Option.some.injEq] at h
              subst h
              exact srcRecv_srcsStep srcs srcs1 c hr
  | selectPanic =>
    cases s with
    | given c => simp [Or2.step] at h
    | running channels pc orDone closes panicked =>
      cases pc with
      | returning => simp [Or2.step] at h
      | exited => simp [Or2.step] at h
      | selecting =>
        simp only [Or2.step] at h
        by_cases hmax : maxSelectCases < channels.length
        · simp only [hmax, if_true, Option.some.injEq] at h
          subst h
          exact Or.inl rfl
        · simp [hmax] at h
  | deferClose =>
    cases s with
    | given c => simp [Or2.step] at h
    | running channels pc orDone closes panicked =>
      cases pc with
      | selecting => simp [Or2.step] at h
      | exited => simp [Or2.step] at h
      | returning =>
        simp only [Or2.step, Option.some.injEq] at h
        subst h
        exact Or.inl rfl

theorem Or3.recvFrom_srcs (srcs srcs1 : Srcs) (t : Or3) (h : t.recvFrom srcs = some srcs1) :
    SrcsStep srcs srcs1 := by
  cases t with
  | given c => exact srcRecv_srcsStep srcs srcs1 c h
  | made d ch =>
    simp only [Or3.recvFrom] at h
    by_cases hc : d.orDone.closed = true
    · simp only [hc, if_true, Option.some.injEq] at h
      exact Or.inl h.symm
    · simp [hc] at h
  | node pc d l r =>
    simp only [Or3.recvFrom] at h
    by_cases hc : d.orDone.closed = true
    · simp only [hc, if_true, Option.some.injEq] at h
      exact Or.inl h.symm
    · simp [hc] at h

theorem Or3.stepHere_srcs (srcs : Srcs) (t : Or3) (a : NodeAct) (st1 : Srcs × Or3)
    (h : t.stepHere srcs a = some st1) : SrcsStep srcs st1.1 := by
  cases t with
  | given c => cases a <;> simp [Or3.stepHere] at h
  | made d ch =>
    cases a with
    | start =>
      simp only [Or3.stepHere, Option.some.injEq] at h
      subst h
      exact Or.inl rfl
    | recvLeft => simp [Or3.stepHere] at h
    | recvRight => simp [Or3.stepHere] at h
    | deferClose => simp [Or3.stepHere] at h
  | node pc d l r =>
    cases pc with
    | selecting =>
      cases a with
      | start => simp [Or3.stepHere] at h
      | deferClose => simp [Or3.stepHere] at h
      | recvLeft =>
        simp only [Or3.stepHere] at h
        cases hrv : l.recvFrom srcs with
        | none => simp [hrv] at h
        | some srcs2 =>
          simp only [hrv, Option.some.injEq] at h
          subst h
          exact Or3.recvFrom_srcs srcs srcs2 l hrv
      | recvRight =>
        simp only [Or3.stepHere] at h
        cases hrv : r.recvFrom srcs with
        | none => simp [hrv] at h
        | some srcs2 =>
          simp only [hrv, Option.some.injEq] at h
          subst h
          exact Or3.recvFrom_srcs srcs srcs2 r hrv
    | returning =>
      cases a with
      | start => simp [Or3.stepHere] at h
      | recvLeft => simp [Or3.stepHere] at h
      | recvRight => simp [Or3.stepHere] at h
      | deferClose =>
        simp only [Or3.stepHere, Option.some.injEq] at h
        subst h
        exact Or.inl rfl
    | exited => cases a <;> simp [Or3.stepHere] at h

theorem Or3.stepAt_srcs (path : List Bool) (a : NodeAct) (srcs : Srcs) (t : Or3)
    (st1 : Srcs × Or3) (h : t.stepAt srcs path a = some st1) : SrcsStep srcs st1.1 := by
  induction path generalizing t st1 with
  | nil =>
    have h2 : t.stepHere srcs a = some st1 := by
      cases t <;> simpa [Or3.stepAt] using h
    exact Or3.stepHere_srcs srcs t a st1 h2
  | cons b rest ih =>
    cases t with
    | given c => simp [Or3.stepAt] at h
    | made d ch => simp [Or3.stepAt] at h
    | node pc d l r =>
      cases b with
      | false =>
        simp only [Or3.stepAt] at h
        cases hs : l.stepAt srcs rest a with
        | none => simp [hs] at h
        | some p =>
          obtain ⟨srcs2, l1⟩ := p
          simp only [hs, Option.some.injEq] at h
          subst h
          exact ih l (srcs2, l1) hs
      | true =>
        simp only [Or3.stepAt] at h
        cases hs : r.stepAt srcs rest a with
        | none => simp [hs] at h
        | some p =>
          obtain ⟨srcs2, r1⟩ := p
          simp only [hs, Option.some.injEq] at h
          subst h
          exact ih r (srcs2, r1) hs

theorem or3_step_srcs (srcs : Srcs) (t : Or3) (a : Act3) (st1 : Srcs × Or3)
    (h : t.step srcs a = some st1) : SrcsStep srcs st1.1 := by
  cases a with
  | env e =>
    simp only [Or3.step] at h
    cases he : envStep srcs e with
    | none => simp [he] at h
    | some srcs1 =>
      simp only [he, Option.some.injEq] at h
      subst h
      exact Or.inr ⟨e, he⟩
  | node path b => exact Or3.stepAt_srcs path b srcs t st1 h

theorem SrcsStep.ready_or_fired_before (srcs srcs1 : Srcs) (h : SrcsStep srcs srcs1) (i : Nat)
    (hle : (srcs i).taken ≤ (srcs i).sent) (hf : (srcs1 i).hasFired = true) :
    (srcs i).hasFired = true ∨ (srcs1 i).ready = true := by
  cases h with
  | inl h =>
    subst h
    exact Or.inl hf
  | inr h =>
    obtain ⟨e, he⟩ := h
    cases e with
    | send j =>
      simp only [envStep] at he
      by_cases hc : (srcs j).closed = true
      · simp [hc] at he
      · simp only [hc, Bool.false_eq_true, if_false, Option.some.injEq] at he
        subst he
        by_cases hji : i = j
        · subst hji
          right
          simp only [Function.update_same, Src.ready, Bool.or_eq_true, decide_eq_true_eq]
          exact Or.inl (by omega)
        · left
          simpa only [Function.update_noteq hji] using hf
    | close j =>
      simp only [envStep] at he
      by_cases hc : (srcs j).closed = true
      · simp [hc] at he
      · simp only [hc, Bool.false_eq_true, if_false, Option.some.injEq] at he
        subst he
        by_cases hji : i = j
        · subst hji
          right
          simp [Function.update_same, Src.ready]
        · left
          simpa only [Function.update_noteq hji] using hf
    | take j =>
      simp only [envStep, srcRecv] at he
      cases hr : (srcs j).recv with
      | none => simp [hr] at he
      | some s1 =>
        simp only [hr, Option.some.injEq] at he
        subst he
        by_cases hji : i = j
        · subst hji
          left
          exact Src.fired_of_ready _ (Src.ready_of_recv _ _ hr).1
        · left
          simpa only [Function.update_noteq hji] using hf

theorem SrcsStep.taken_le (srcs srcs1 : Srcs) (h : SrcsStep srcs srcs1)
    (hle : ∀ i, (srcs i).taken ≤ (srcs i).sent) (i : Nat) :
    (srcs1 i).taken ≤ (srcs1 i).sent := by
  cases h with
  | inl h =>
    subst h
    exact hle i
  | inr h =>
    obtain ⟨e, he⟩ := h
    cases e with
    | send j =>
      simp only [envStep] at he
      by_cases hc : (srcs j).closed = true
      · simp [hc] at he
      · simp only [hc, Bool.false_eq_true, if_false, Option.some.injEq] at he
        subst he
        by_cases hji : i = j
        · subst hji
          simp only [Function.update_same]
          have := hle i
          omega
        · simpa only [Function.update_noteq hji] using hle i
    | close j =>
      simp only [envStep] at he
      by_cases hc : (srcs j).closed = true
      · simp [hc] at he
      · simp only [hc, Bool.false_eq_true, if_false, Option.some.injEq] at he
        subst he
        by_cases hji : i = j
        · subst hji
          simp only [Function.update_same]
          exact hle i
        · simpa only [Function.update_noteq hji] using hle i
    | take j =>
      simp only [envStep, srcRecv] at he
      cases hr : (srcs j).recv with
      | none => simp [hr] at he
      | some s1 =>
        simp only [hr, Option.some.injEq] at he
        subst he
        by_cases hji : i = j
        · subst hji
          simp only [Function.update_same]
          unfold Src.recv at hr
          by_cases h1 : (srcs i).taken < (srcs i).sent
          · simp only [h1, if_true, Option.some.injEq] at hr
            subst hr
            show (srcs i).taken + 1 ≤ (srcs i).sent
            omega
          · by_cases h2 : (srcs i).closed = true
            · simp only [h1, if_false, h2, if_true, Option.some.injEq] at hr
              subst hr
              exact hle i
            · simp [h1, h2] at hr
        · simpa only [Function.update_noteq hji] using hle i

theorem runSteps_ready_prefix {S A : Type} (step : Srcs → S → A → Option (Srcs × S))
    (hstep : ∀ srcs s a st1, step srcs s a = some st1 → SrcsStep srcs st1.1)
    (acts : List A) (st st1 : Srcs × S) (hrun : runSteps step acts st = some st1)
    (hle : ∀ i, (st.1 i).taken ≤ (st.1 i).sent) (i : Nat)
    (hf : (st1.1 i).hasFired = true) :
    (st.1 i).hasFired = true ∨
      ∃ k stk, runSteps step (acts.take k) st = some stk ∧ (stk.1 i).ready = true := by
  induction acts generalizing st with
  | nil =>
    simp only [runSteps, Option.some.injEq] at hrun
    subst hrun
    exact Or.inl hf
  | cons a rest ih =>
    simp only [runSteps] at hrun
    cases hs : step st.1 st.2 a with
    | none => simp [hs] at hrun
    | some st2 =>
      simp only [hs] at hrun
      have hss := hstep st.1 st.2 a st2 hs
      have hle2 := SrcsStep.taken_le st.1 st2.1 hss hle
      cases ih st2 hrun hle2 with
      | inl h2 =>
        cases SrcsStep.ready_or_fired_before st.1 st2.1 hss i (hle i) h2 with
        | inl h3 => exact Or.inl h3
        | inr h3 =>
          refine Or.inr ⟨1, st2, ?_, h3⟩
          simp [runSteps, hs]
      | inr h2 =>
        obtain ⟨k, stk, hk, hr⟩ := h2
        refine Or.inr ⟨k + 1, stk, ?_, hr⟩
        simp only [List.take_succ_cons, runSteps, hs]
        exact hk

theorem runSteps_fired_was_ready {S A : Type} (step : Srcs → S → A → Option (Srcs × S))
    (hstep : ∀ srcs s a st1, step srcs s a = some st1 → SrcsStep srcs st1.1)
    (pending : Nat → Nat) (closed : Nat → Bool) (s0 : S) (acts : List A) (st1 : Srcs × S)
    (hrun : runSteps step acts (initSrcs pending closed, s0) = some st1) (c : ChanRef)
    (hf : srcFired st1.1 c = true) :
    ∃ k stk, runSteps step (acts.take k) (initSrcs pending closed, s0) = some stk ∧
      srcReady stk.1 c = true := by
  cases c with
  | none => simp [srcFired] at hf
  | some i =>
    have hle : ∀ j, ((initSrcs pending closed, s0).1 j).taken ≤
        ((initSrcs pending closed, s0).1 j).sent := fun j => Nat.zero_le _
    cases runSteps_ready_prefix step hstep acts _ st1 hrun hle i hf with
    | inl h =>
      refine ⟨0, (initSrcs pending closed, s0), by simp [runSteps], ?_⟩
      simp only [initSrcs, Src.hasFired, Bool.or_eq_true, decide_eq_true_eq] at h
      simp only [srcReady, initSrcs, Src.ready, Bool.or_eq_true, decide_eq_true_eq]
      exact h
    | inr h => exact h

/-! ## A fired aggregate stays fired -/

theorem runSteps_preserves {S A : Type} (step : Srcs → S → A → Option (Srcs × S))
    (P : Srcs × S → Prop)
    (hP : ∀ st a st1, P st → step st.1 st.2 a = some st1 → P st1)
    (acts : List A) (st st1 : Srcs × S) (hrun : runSteps step acts st = some st1)
    (h : P st) : P st1 := by
  induction acts generalizing st with
  | nil =>
    simp only [runSteps, Option.some.injEq] at hrun
    subst hrun
    exact h
  | cons a rest ih =>
    simp only [runSteps] at hrun
    cases hs : step st.1 st.2 a with
    | none => simp [hs] at hrun
    | some st2 =>
      simp only [hs] at hrun
      exact ih st2 hrun (hP st a st2 h hs)

theorem Out.close_closed (o : Out) (h : o.closed = true) : o.close.2.closed = true := by
  simp [Out.close, h]

theorem Or1.closed_step (srcs : Srcs) (s : Or1) (a : Act1) (st1 : Srcs × Or1)
    (hc : s.out.closed = true) (h : s.step srcs a = some st1) : st1.2.out.closed = true := by
  cases a with
  | env e =>
    simp only [Or1.step] at h
    cases he : envStep srcs e with
    | none => simp [he] at h
    | some srcs1 =>
      simp only [he, Option.some.injEq] at h
      subst h
      exact hc
  | spawn =>
    simp only [Or1.step] at h
    by_cases hlt : s.spawned < s.chans.length
    · simp only [hlt, if_true, Option.some.injEq] at h
      subst h
      exact hc
    · simp [hlt] at h
  | recvSrc w =>
    simp only [Or1.step] at h
    cases hw : s.ws w with
    | idle => simp [hw] at h
    | received => simp [hw] at h
    | exited => simp [hw] at h
    | selecting =>
      cases hg : s.chans[w]? with
      | none => simp [hw, hg] at h
      | some c =>
        cases hr : srcRecv srcs c with
        | none => simp [hw, hg, hr] at h
        | some srcs1 =>
          simp only [hw, hg, hr, Option.some.injEq] at h
          subst h
          exact hc
  | recvOut w =>
    simp only [Or1.step] at h
    cases hw : s.ws w with
    | idle => simp [hw] at h
    | received => simp [hw] at h
    | exited => simp [hw] at h
    | selecting =>
      simp only [hw, hc, if_true, Option.some.injEq] at h
      subst h
      exact hc
  | onceDo w =>
    simp only [Or1.step] at h
    cases hw : s.ws w with
    | idle => simp [hw] at h
    | selecting => simp [hw] at h
    | exited => simp [hw] at h
    | received =>
      simp only [hw, Option.some.injEq] at h
      subst h
      show s.onceDo.out.closed = true
      by_cases ho : s.once = true
      · simp [Or1.onceDo, ho, hc]
      · simp [Or1.onceDo, ho, Out.close, hc]

theorem or2_fired_step (srcs : Srcs) (s : Or2) (a : Act2) (st1 : Srcs × Or2)
    (hm : s.signal = Signal.made ∧ s.fired srcs = true) (h : s.step srcs a = some st1) :
    st1.2.signal = Signal.made ∧ st1.2.fired st1.1 = true := by
  cases s with
  | given c => simp [Or2.signal] at hm
  | running channels pc orDone closes panicked =>
    have hc : orDone.closed = true := hm.2
    cases a with
    | env e =>
      simp only [Or2.step] at h
      cases he : envStep srcs e with
      | none => simp [he] at h
      | some srcs1 =>
        simp only [he, Option.some.injEq] at h
        subst h
        exact ⟨rfl, hc⟩
    | select i =>
      cases pc with
      | returning => simp [Or2.step] at h
      | exited => simp [Or2.step] at h
      | selecting =>
        simp only [Or2.step] at h
        by_cases hmax : maxSelectCases < channels.length
        · simp [hmax] at h
        · simp only [hmax, if_false] at h
          cases hg : channels[i]? with
          | none => simp [hg] at h
          | some c =>
            cases hr : srcRecv srcs c with
            | none => simp [hg, hr] at h
            | some srcs1 =>
              simp only [hg, hr, Option.some.injEq] at h
              subst h
              exact ⟨rfl, hc⟩
    | selectPanic =>
      cases pc with
      | returning => simp [Or2.step] at h
      | exited => simp [Or2.step] at h
      | selecting =>
        simp only [Or2.step] at h
        by_cases hmax : maxSelectCases < channels.length
        · simp only [hmax, if_true, Option.some.injEq] at h
          subst h
          exact ⟨rfl, hc⟩
        · simp [hmax] at h
    | deferClose =>
      cases pc with
      | selecting => simp [Or2.step] at h
      | exited => simp [Or2.step] at h
      | returning =>
        simp only [Or2.step, Option.some.injEq] at h
        subst h
        exact ⟨rfl, Out.close_closed orDone hc⟩

theorem Or3.made_stepAt (path : List Bool) (a : NodeAct) (srcs : Srcs) (t : Or3)
    (st1 : Srcs × Or3) (hm : t.signal = Signal.made) (h : t.stepAt srcs path a = some st1) :
    st1.2.signal = Signal.made ∧ (t.fired srcs = true → st1.2.fired st1.1 = true) := by
  cases path with
  | nil =>
    have h2 : t.stepHere srcs a = some st1 := by
      cases t <;> simpa [Or3.stepAt] using h
    cases t with
    | given c => simp [Or3.signal] at hm
    | made d ch =>
      cases a with
      | start =>
        simp only [Or3.stepHere, Option.some.injEq] at h2
        subst h2
        exact ⟨rfl, fun hf => hf⟩
      | recvLeft => simp [Or3.stepHere] at h2
      | recvRight => simp [Or3.stepHere] at h2
      | deferClose => simp [Or3.stepHere] at h2
    | node pc d l r =>
      cases pc with
      | selecting =>
        cases a with
        | start => simp [Or3.stepHere] at h2
        | deferClose => simp [Or3.stepHere] at h2
        | recvLeft =>
          simp only [Or3.stepHere] at h2
          cases hrv : l.recvFrom srcs with
          | none => simp [hrv] at h2
          | some srcs2 =>
            simp only [hrv, Option.some.injEq] at h2
            subst h2
            exact ⟨rfl, fun hf => hf⟩
        | recvRight =>
          simp only [Or3.stepHere] at h2
          cases hrv : r.recvFrom srcs with
          | none => simp [hrv] at h2
          | some srcs2 =>
            simp only [hrv, Option.some.injEq] at h2
            subst h2
            exact ⟨rfl, fun hf => hf⟩
      | returning =>
        cases a with
        | start => simp [Or3.stepHere] at h2
        | recvLeft => simp [Or3.stepHere] at h2
        | recvRight => simp [Or3.stepHere] at h2
        | deferClose =>
          simp only [Or3.stepHere, Option.some.injEq] at h2
          subst h2
          refine ⟨rfl, fun hf => ?_⟩
          exact Out.close_closed d.orDone hf
      | exited => cases a <;> simp [Or3.stepHere] at h2
  | cons b rest =>
    cases t with
    | given c => simp [Or3.stepAt] at h
    | made d ch => simp [Or3.stepAt] at h
    | node pc d l r =>
      cases b with
      | false =>
        simp only [Or3.stepAt] at h
        cases hs : l.stepAt srcs rest a with
        | none => simp [hs] at h
        | some p =>
          obtain ⟨srcs2, l1⟩ := p
          simp only [hs, Option.some.injEq] at h
          subst h
          exact ⟨rfl, fun hf => hf⟩
      | true =>
        simp only [Or3.stepAt] at h
        cases hs : r.stepAt srcs rest a with
        | none => simp [hs] at h
        | some p =>
          obtain ⟨srcs2, r1⟩ := p
          simp only [hs, Option.some.injEq] at h
          subst h
          exact ⟨rfl, fun hf => hf⟩

theorem or3_fired_step (srcs : Srcs) (t : Or3) (a : Act3) (st1 : Srcs × Or3)
    (hm : t.signal = Signal.made ∧ t.fired srcs = true) (h : t.step srcs a = some st1) :
    st1.2.signal = Signal.made ∧ st1.2.fired st1.1 = true := by
  cases a with
  | env e =>
    simp only [Or3.step] at h
    cases he : envStep srcs e with
    | none => simp [he] at h
    | some srcs1 =>
      simp only [he, Option.some.injEq] at h
      subst h
      refine ⟨hm.1, ?_⟩
      cases t with
      | given c => simp [Or3.signal] at hm
      | made d ch => exact hm.2
      | node pc d l r => exact hm.2
  | node path b =>
    obtain ⟨h1, h2⟩ := Or3.made_stepAt path b srcs t st1 hm.1 h
    exact ⟨h1, h2 hm.2⟩

theorem or3_made_step (srcs : Srcs) (t : Or3) (a : Act3) (st1 : Srcs × Or3)
    (hm : t.signal = Signal.made) (h : t.step srcs a = some st1) :
    st1.2.signal = Signal.made := by
  cases a with
  | env e =>
    simp only [Or3.step] at h
    cases he : envStep srcs e with
    | none => simp [he] at h
    | some srcs1 =>
      simp only [he, Option.some.injEq] at h
      subst h
      exact hm
  | node path b => exact (Or3.made_stepAt path b srcs t st1 hm h).1

theorem or2_made_step (srcs : Srcs) (s : Or2) (a : Act2) (st1 : Srcs × Or2)
    (hm : s.signal = Signal.made) (h : s.step srcs a = some st1) :
    st1.2.signal = Signal.made := by
  cases s with
  | given c => simp [Or2.signal] at hm
  | running channels pc orDone closes panicked =>
    cases a with
    | env e =>
      simp only [Or2.step] at h
      cases he : envStep srcs e with
      | none => simp [he] at h
      | some srcs1 =>
        simp only [he, Option.some.injEq] at h
        subst h
        rfl
    | select i =>
      cases pc with
      | returning => simp [Or2.step] at h
      | exited => simp [Or2.step] at h
      | selecting =>
        simp only [Or2.step] at h
        by_cases hmax : maxSelectCases < channels.length
        · simp [hmax] at h
        · simp only [hmax, if_false] at h
          cases hg : channels[i]? with
          | none => simp [hg] at h
          | some c =>
            cases hr : srcRecv srcs c with
            | none => simp [hg, hr] at h
            | some srcs1 =>
              simp only [hg, hr, Option.some.injEq] at h
              subst h
              rfl
    | selectPanic =>
      cases pc with
      | returning => simp [Or2.step] at h
      | exited => simp [Or2.step] at h
      | selecting =>
        simp only [Or2.step] at h
        by_cases hmax : maxSelectCases < channels.length
        · simp only [hmax, if_true, Option.some.injEq] at h
          subst h
          rfl
        · simp [hmax] at h
    | deferClose =>
      cases pc with
      | selecting => simp [Or2.step] at h
      | exited => simp [Or2.step] at h
      | returning =>
        simp only [Or2.step, Option.some.injEq] at h
        subst h
        rfl

theorem or2_made (chans : List ChanRef) (hN : 2 ≤ chans.length) :
    (or2 chans).signal = Signal.made := by
  cases chans with
  | nil => simp at hN
  | cons a rest =>
    cases rest with
    | nil => simp at hN
    | cons b rest => rfl

theorem or3_made (chans : List ChanRef) (hN : 2 ≤ chans.length) :
    (or3 chans).signal = Signal.made := by
  cases chans with
  | nil => simp at hN
  | cons a rest =>
    cases rest with
    | nil => simp at hN
    | cons b rest => rfl

/-! ## The contracts of the aggregators -/

/-- Where the aggregators agree with C4: for `or1` and `or3` and every list of channels,
and for `or2` and every list of at most `maxSelectCases` channels, along every run of the
goroutines and of the rest of the program, the channel returned is ready for a receive
(closed) only if, in some state the run went through, a receive from one of the given
channels could proceed.  So for no channel at all the returned channel never fires, and
it never fires along a run in which no given channel ever becomes ready. -/
theorem aggregate_fires_after_source (chans : List ChanRef) (pending : Nat → Nat)
    (closed : Nat → Bool)
    (acts1 : List Act1) (st1 : Srcs × Or1)
    (h1 : Or1.run acts1 (initSrcs pending closed, or1 chans) = some st1)
    (acts2 : List Act2) (st2 : Srcs × Or2)
    (h2 : Or2.run acts2 (initSrcs pending closed, or2 chans) = some st2)
    (acts3 : List Act3) (st3 : Srcs × Or3)
    (h3 : Or3.run acts3 (initSrcs pending closed, or3 chans) = some st3) :
    (st1.2.out.closed = true → ∃ c, c ∈ chans ∧ ∃ k stk,
      Or1.run (acts1.take k) (initSrcs pending closed, or1 chans) = some stk ∧
      srcReady stk.1 c = true) ∧
    (chans.length ≤ maxSelectCases → st2.2.fired st2.1 = true → ∃ c, c ∈ chans ∧ ∃ k stk,
      Or2.run (acts2.take k) (initSrcs pending closed, or2 chans) = some stk ∧
      srcReady stk.1 c = true) ∧
    (st3.2.fired st3.1 = true → ∃ c, c ∈ chans ∧ ∃ k stk,
      Or3.run (acts3.take k) (initSrcs pending closed, or3 chans) = some stk ∧
      srcReady stk.1 c = true) ∧
    (chans = [] →
      st1.2.out.closed = false ∧ st2.2.fired st2.1 = false ∧ st3.2.fired st3.1 = false) ∧
    ((∀ c, c ∈ chans → ∀ k stk,
        Or1.run (acts1.take k) (initSrcs pending closed, or1 chans) = some stk →
        srcReady stk.1 c = false) → st1.2.out.closed = false) ∧
    (chans.length ≤ maxSelectCases → (∀ c, c ∈ chans → ∀ k stk,
        Or2.run (acts2.take k) (initSrcs pending closed, or2 chans) = some stk →
        srcReady stk.1 c = false) → st2.2.fired st2.1 = false) ∧
    ((∀ c, c ∈ chans → ∀ k stk,
        Or3.run (acts3.take k) (initSrcs pending closed, or3 chans) = some stk →
        srcReady stk.1 c = false) → st3.2.fired st3.1 = false) := by
  have p1 : st1.2.out.closed = true → ∃ c, c ∈ chans ∧ ∃ k stk,
      Or1.run (acts1.take k) (initSrcs pending closed, or1 chans) = some stk ∧
      srcReady stk.1 c = true := by
    intro hc
    have hinv := or1_inv_run chans acts1 _ st1 (or1_inv_init chans _) h1
    obtain ⟨_, hout, _, _, _, honce⟩ := hinv
    obtain ⟨c, hmem, hf⟩ := honce (by rw [← hout]; exact hc)
    exact ⟨c, hmem, runSteps_fired_was_ready _ or1_step_srcs pending closed (or1 chans)
      acts1 st1 h1 c hf⟩
  have p2 : chans.length ≤ maxSelectCases → st2.2.fired st2.1 = true →
      ∃ c, c ∈ chans ∧ ∃ k stk,
      Or2.run (acts2.take k) (initSrcs pending closed, or2 chans) = some stk ∧
      srcReady stk.1 c = true := by
    intro hmax hc
    have hinv := or2_inv_run chans acts2 (initSrcs pending closed, or2 chans) st2
      (or2_inv_init chans _) h2
    obtain ⟨c, hmem, hf⟩ := or2_fired_of_inv chans hmax st2.1 st2.2 hinv hc
    exact ⟨c, hmem, runSteps_fired_was_ready _ or2_step_srcs pending closed (or2 chans)
      acts2 st2 h2 c hf⟩
  have p3 : st3.2.fired st3.1 = true → ∃ c, c ∈ chans ∧ ∃ k stk,
      Or3.run (acts3.take k) (initSrcs pending closed, or3 chans) = some stk ∧
      srcReady stk.1 c = true := by
    intro hc
    obtain ⟨i1, i2, i3⟩ := or3_inv_run acts3 (initSrcs pending closed, or3 chans) st3
      (or3_inv chans) (or3_just _ chans) h3
    obtain ⟨c, hmem, hf⟩ := or3_fired_of_inv st3.1 st3.2 i1 i2 hc
    have hne : c ≠ none := by
      intro hnone
      subst hnone
      simp [srcFired] at hf
    rw [i3] at hmem
    exact ⟨c, or3_sources_sub chans c hmem hne,
      runSteps_fired_was_ready _ or3_step_srcs pending closed (or3 chans) acts3 st3 h3 c hf⟩
  refine ⟨p1, p2, p3, ?_, ?_, ?_, ?_⟩
  · intro hnil
    subst hnil
    refine ⟨?_, ?_, ?_⟩
    · cases hc : st1.2.out.closed with
      | false => rfl
      | true =>
        obtain ⟨c, hmem, _⟩ := p1 hc
        simp at hmem
    · cases hc : st2.2.fired st2.1 with
      | false => rfl
      | true =>
        obtain ⟨c, hmem, _⟩ := p2 (by simp [maxSelectCases]) hc
        simp at hmem
    · cases hc : st3.2.fired st3.1 with
      | false => rfl
      | true =>
        obtain ⟨c, hmem, _⟩ := p3 hc
        simp at hmem
  · intro hnever
    cases hc : st1.2.out.closed with
    | false => rfl
    | true =>
      obtain ⟨c, hmem, k, stk, hk, hr⟩ := p1 hc
      rw [hnever c hmem k stk hk] at hr
      exact absurd hr (by decide)
  · intro hmax hnever
    cases hc : st2.2.fired st2.1 with
    | false => rfl
    | true =>
      obtain ⟨c, hmem, k, stk, hk, hr⟩ := p2 hmax hc
      rw [hnever c hmem k stk hk] at hr
      exact absurd hr (by decide)
  · intro hnever
    cases hc : st3.2.fired st3.1 with
    | false => rfl
    | true =>
      obtain ⟨c, hmem, k, stk, hk, hr⟩ := p3 hc
      rw [hnever c hmem k stk hk] at hr
      exact absurd hr (by decide)

theorem manyChans_length : manyChans.length = 65537 := by
  unfold manyChans
  rw [List.length_cons, List.length_cons, List.length_map, List.length_range]

theorem or2_panic_run (a b : ChanRef) (rest : List ChanRef)
    (hlen : maxSelectCases < (a :: b :: rest).length) (srcs : Srcs) :
    ∃ st, Or2.run panicActs2 (srcs, or2 (a :: b :: rest)) = some st ∧
      st.2.fired st.1 = true ∧ st.2.closeCount = 1 ∧ st.2.fault = some selectFault ∧
      (∀ k stk, Or2.run (panicActs2.take k) (srcs, or2 (a :: b :: rest)) = some stk →
        stk.1 = srcs) := by
  have hstep1 : (Or2.running (a :: b :: rest) Pc.selecting { closed := false } 0 none).step srcs
      Act2.selectPanic =
      some (srcs, Or2.running (a :: b :: rest) Pc.returning { closed := false } 0
        (some selectFault)) := by
    simp only [Or2.step, hlen, if_true]
    rfl
  have hstep2 : (Or2.running (a :: b :: rest) Pc.returning { closed := false } 0
      (some selectFault)).step srcs Act2.deferClose =
      some (srcs, Or2.running (a :: b :: rest) Pc.exited { closed := true } 1
        (some selectFault)) := rfl
  have hrun1 : Or2.run [Act2.selectPanic] (srcs, or2 (a :: b :: rest)) =
      some (srcs, Or2.running (a :: b :: rest) Pc.returning { closed := false } 0
        (some selectFault)) := by
    simp only [Or2.run, runSteps, or2, hstep1]
  have hrun2 : Or2.run panicActs2 (srcs, or2 (a :: b :: rest)) =
      some (srcs, Or2.running (a :: b :: rest) Pc.exited { closed := true } 1
        (some selectFault)) := by
    simp only [Or2.run, panicActs2, runSteps, or2, hstep1, hstep2]
  refine ⟨_, hrun2, rfl, rfl, rfl, ?_⟩
  intro k stk hk
  match k, hk with
  | 0, hk =>
    simp only [panicActs2, List.take_zero, Or2.run, runSteps, Option.some.injEq] at hk
    rw [← hk]
  | 1, hk =>
    have hk1 : Or2.run [Act2.selectPanic] (srcs, or2 (a :: b :: rest)) = some stk := hk
    rw [hrun1, Option.some.injEq] at hk1
    rw [← hk1]
  | k + 2, hk =>
    have hk2 : Or2.run panicActs2 (srcs, or2 (a :: b :: rest)) = some stk := by
      simpa [panicActs2] using hk
    rw [hrun2, Option.some.injEq] at hk2
    rw [← hk2]

theorem idleSrcs_never_ready (c : ChanRef) : srcReady idleSrcs c = false := by
  cases c with
  | none => rfl
  | some i => simp [srcReady, idleSrcs, initSrcs, Src.ready]

/-- C4 fails for `or2` on 65537 sources that never become ready: `reflect.Select` panics,
having been given more than 65536 cases, the deferred `close(orDone)` runs, and the
returned channel is closed although no source was ready in any state of the run; the
sources are untouched throughout. -/
theorem or2_closes_on_too_many_cases :
    manyChans.length = 65537 ∧
    (∀ c, srcReady idleSrcs c = false) ∧
    ∃ st, Or2.run panicActs2 (idleSrcs, or2 manyChans) = some st ∧
      st.2.fired st.1 = true ∧ st.2.closeCount = 1 ∧ st.2.fault = some selectFault ∧
      (∀ k stk, Or2.run (panicActs2.take k) (idleSrcs, or2 manyChans) = some stk →
        stk.1 = idleSrcs) :=
  ⟨manyChans_length, idleSrcs_never_ready,
   or2_panic_run (some 0) (some 1) ((List.range 65535).map (fun i => some (i + 2)))
     (by
       have h : maxSelectCases < manyChans.length := by
         rw [manyChans_length]
         decide
       exact h) idleSrcs⟩

/-- C5: for `or1`, `or2` and `or3`, every list of at least two channels and every run, the
`close` of the returned channel has been executed at most once and no close of a closed
channel has panicked (in `or1` and `or3` nothing has panicked at all, in `or2` nothing
but `reflect.Select`, and only when given more than `maxSelectCases` channels); the
returned channel is closed exactly when that `close` has been executed once; and if it is
closed, it is still closed after any further steps. -/
theorem aggregate_closed_once (chans : List ChanRef) (hN : 2 ≤ chans.length) (srcs0 : Srcs)
    (acts1 more1 : List Act1) (st1 st1a : Srcs × Or1)
    (h1 : Or1.run acts1 (srcs0, or1 chans) = some st1) (h1a : Or1.run more1 st1 = some st1a)
    (acts2 more2 : List Act2) (st2 st2a : Srcs × Or2)
    (h2 : Or2.run acts2 (srcs0, or2 chans) = some st2) (h2a : Or2.run more2 st2 = some st2a)
    (acts3 more3 : List Act3) (st3 st3a : Srcs × Or3)
    (h3 : Or3.run acts3 (srcs0, or3 chans) = some st3) (h3a : Or3.run more3 st3 = some st3a) :
    (st1.2.closes ≤ 1 ∧ st1.2.panicked = none ∧
      (st1.2.out.closed = true ↔ st1.2.closes = 1) ∧
      (st1.2.out.closed = true → st1a.2.out.closed = true)) ∧
    (st2.2.signal = Signal.made ∧ st2.2.closeCount ≤ 1 ∧ st2.2.fault ≠ some closeFault ∧
      (chans.length ≤ maxSelectCases → st2.2.fault = none) ∧
      (st2.2.fired st2.1 = true ↔ st2.2.closeCount = 1) ∧
      (st2.2.fired st2.1 = true → st2a.2.fired st2a.1 = true)) ∧
    (st3.2.signal = Signal.made ∧ st3.2.closeCount ≤ 1 ∧ st3.2.fault = none ∧
      (st3.2.fired st3.1 = true ↔ st3.2.closeCount = 1) ∧ st3.2.Inv ∧
      (st3.2.fired st3.1 = true → st3a.2.fired st3a.1 = true)) := by
  refine ⟨?_, ?_, ?_⟩
  · obtain ⟨_, hout, hcl, hp, _, _⟩ := or1_inv_run chans acts1 _ st1 (or1_inv_init chans _) h1
    refine ⟨?_, hp, ?_, ?_⟩
    · rw [hcl]
      split <;> omega
    · rw [hout, hcl]
      cases st1.2.once <;> simp
    · intro hc
      exact runSteps_preserves (fun srcs s a => Or1.step srcs s a)
        (fun st => st.2.out.closed = true)
        (fun st a st1 hst hs => Or1.closed_step st.1 st.2 a st1 hst hs) more1 st1 st1a h1a hc
  · have hinv := or2_inv_run chans acts2 (srcs0, or2 chans) st2 (or2_inv_init chans _) h2
    have hmade : st2.2.signal = Signal.made :=
      runSteps_preserves (fun srcs s a => Or2.step srcs s a)
        (fun st => st.2.signal = Signal.made)
        (fun st a st1 hst hs => or2_made_step st.1 st.2 a st1 hst hs) acts2 _ st2 h2
        (or2_made chans hN)
    have hstay : st2.2.fired st2.1 = true → st2a.2.fired st2a.1 = true := by
      intro hc
      exact (runSteps_preserves (fun srcs s a => Or2.step srcs s a)
        (fun st => st.2.signal = Signal.made ∧ st.2.fired st.1 = true)
        (fun st a st1 hst hs => or2_fired_step st.1 st.2 a st1 hst hs) more2 st2 st2a h2a
        ⟨hmade, hc⟩).2
    obtain ⟨hnc, hnone⟩ := or2_fault_of_inv chans st2.1 st2.2 hinv
    obtain ⟨srcs2, s2⟩ := st2
    cases s2 with
    | given c => simp [Or2.signal] at hmade
    | running channels pc orDone closes panicked =>
      obtain ⟨_, hcell, _, _⟩ := hinv
      refine ⟨hmade, ?_, hnc, hnone, ?_, hstay⟩
      · show closes ≤ 1
        by_cases hpc : pc = Pc.exited
        · simp only [hpc, if_true] at hcell
          omega
        · simp only [hpc, if_false] at hcell
          omega
      · show orDone.closed = true ↔ closes = 1
        by_cases hpc : pc = Pc.exited
        · simp only [hpc, if_true] at hcell
          simp [hcell.1, hcell.2]
        · simp only [hpc, if_false] at hcell
          simp [hcell.1, hcell.2]
  · obtain ⟨hinv, _, _⟩ := or3_inv_run acts3 (srcs0, or3 chans) st3 (or3_inv chans)
      (or3_just _ chans) h3
    have hmade : st3.2.signal = Signal.made :=
      runSteps_preserves (fun srcs s a => Or3.step srcs s a)
        (fun st => st.2.signal = Signal.made)
        (fun st a st1 hst hs => or3_made_step st.1 st.2 a st1 hst hs) acts3 _ st3 h3
        (or3_made chans hN)
    have hstay : st3.2.fired st3.1 = true → st3a.2.fired st3a.1 = true := by
      intro hc
      exact (runSteps_preserves (fun srcs s a => Or3.step srcs s a)
        (fun st => st.2.signal = Signal.made ∧ st.2.fired st.1 = true)
        (fun st a st1 hst hs => or3_fired_step st.1 st.2 a st1 hst hs) more3 st3 st3a h3a
        ⟨hmade, hc⟩).2
    obtain ⟨srcs3, t⟩ := st3
    cases t with
    | given c => simp [Or3.signal] at hmade
    | made d ch =>
      obtain ⟨⟨o1, o2, o3⟩, _⟩ := hinv
      refine ⟨hmade, ?_, o3, ?_, ⟨⟨o1, o2, o3⟩, by assumption⟩, hstay⟩
      · show d.closes ≤ 1
        omega
      · show d.orDone.closed = true ↔ d.closes = 1
        simp [o1, o2]
    | node pc d l r =>
      have hcell := hinv.1
      by_cases hpc : pc = Pc.exited
      · simp only [hpc, if_true] at hcell
        obtain ⟨o1, o2, o3⟩ := hcell
        refine ⟨hmade, ?_, o3, ?_, hinv, hstay⟩
        · show d.closes ≤ 1
          omega
        · show d.orDone.closed = true ↔ d.closes = 1
          simp [o1, o2]
      · simp only [hpc, if_false] at hcell
        obtain ⟨o1, o2, o3⟩ := hcell
        refine ⟨hmade, ?_, o3, ?_, hinv, hstay⟩
        · show d.closes ≤ 1
          omega
        · show d.orDone.closed = true ↔ d.closes = 1
          simp [o1, o2]

theorem aggregate_closed_once_witness :
    2 ≤ threeChans.length ∧
    ∃ st1 st1a st2 st2a st3 st3a,
      Or1.run raceActs1 (idleSrcs, or1 threeChans) = some st1 ∧
      Or1.run moreActs1 st1 = some st1a ∧
      Or2.run raceActs2 (idleSrcs, or2 threeChans) = some st2 ∧
      Or2.run moreActs2 st2 = some st2a ∧
      Or3.run raceActs3 (idleSrcs, or3 threeChans) = some st3 ∧
      Or3.run moreActs3 st3 = some st3a ∧
      st1.2.out.closed = true ∧ st2.2.fired st2.1 = true ∧ st3.2.fired st3.1 = true ∧
      st1.2.closes ≤ 1 ∧ st1.2.panicked = none ∧ st1a.2.out.closed = true :=
  ⟨by decide, _, _, _, _, _, _, rfl, rfl, rfl, rfl, rfl, rfl, rfl, rfl, rfl,
   (aggregate_closed_once threeChans (by decide) idleSrcs
      raceActs1 moreActs1 _ _ rfl rfl raceActs2 moreActs2 _ _ rfl rfl
      raceActs3 moreActs3 _ _ rfl rfl).1.1,
   (aggregate_closed_once threeChans (by decide) idleSrcs
      raceActs1 moreActs1 _ _ rfl rfl raceActs2 moreActs2 _ _ rfl rfl
      raceActs3 moreActs3 _ _ rfl rfl).1.2.1,
   (aggregate_closed_once threeChans (by decide) idleSrcs
      raceActs1 moreActs1 _ _ rfl rfl raceActs2 moreActs2 _ _ rfl rfl
      raceActs3 moreActs3 _ _ rfl rfl).1.2.2.2 rfl⟩

/-- C7, as the claim states it, fails for `or1`: for the one-element list `[c]` it returns
the channel `out` it made, not `c`, and its watcher takes the value waiting in `c`. -/
theorem or1_single_source_wraps :
    ¬ (or1Signal [some 0] = Signal.given (some 0)) ∧
    ∃ st, Or1.run [Act1.spawn, Act1.recvSrc 0]
        (initSrcs (fun _ => 1) (fun _ => false), or1 [some 0]) = some st ∧
      (st.1 0).taken = 1 ∧ st.2.ws 0 = Watcher.received :=
  ⟨by decide, _, rfl, rfl, rfl⟩

/-- C7, amended: `or2` and `or3` return the channel `c` itself for the one-element list
`[c]` and start no goroutine, so that only the rest of the program acts on `c`; `or1`
returns the channel it made and starts a watcher on `c`. -/
theorem single_source_returned (c : ChanRef) :
    or2 [c] = Or2.given c ∧ (or2 [c]).signal = Signal.given c ∧
    or3 [c] = Or3.given c ∧ (or3 [c]).signal = Signal.given c ∧
    (∀ srcs a st, (or2 [c]).step srcs a = some st →
      (∃ e, a = Act2.env e ∧ envStep srcs e = some st.1) ∧ st.2 = Or2.given c) ∧
    (∀ srcs a st, (or3 [c]).step srcs a = some st →
      (∃ e, a = Act3.env e ∧ envStep srcs e = some st.1) ∧ st.2 = Or3.given c) ∧
    or1Signal [c] = Signal.made ∧
    (∀ srcs, (or1 [c]).step srcs Act1.spawn =
      some (srcs, { or1 [c] with spawned := 1,
                                 ws := Function.update (or1 [c]).ws 0 Watcher.selecting })) := by
  refine ⟨rfl, rfl, rfl, rfl, ?_, ?_, rfl, ?_⟩
  · intro srcs a st h
    cases a with
    | env e =>
      simp only [or2, Or2.step] at h
      cases he : envStep srcs e with
      | none => simp [he] at h
      | some srcs1 =>
        simp only [he, Option.some.injEq] at h
        subst h
        exact ⟨⟨e, rfl, he⟩, rfl⟩
    | select i => simp [or2, Or2.step] at h
    | selectPanic => simp [or2, Or2.step] at h
    | deferClose => simp [or2, Or2.step] at h
  · intro srcs a st h
    cases a with
    | env e =>
      simp only [or3, Or3.step] at h
      cases he : envStep srcs e with
      | none => simp [he] at h
      | some srcs1 =>
        simp only [he, Option.some.injEq] at h
        subst h
        exact ⟨⟨e, rfl, he⟩, rfl⟩
    | node path b =>
      cases path with
      | nil => cases b <;> simp [or3, Or3.step, Or3.stepAt, Or3.stepHere] at h
      | cons x rest => simp [or3, Or3.step, Or3.stepAt] at h
  · intro srcs
    rfl

end Program
